import Mathlib

/-!
Verification development for the NewsBlur clustering engine
(`apps/clustering/models.py`), briefing summary orchestrator
(`apps/briefing/summary.py`) and LLM cost recorder
(`apps/statistics/rllm_costs.py`).

Python dicts are embedded as association lists (`List (k × v)`) whose
operations mirror CPython semantics: lookup finds the first (unique) binding,
assignment replaces the value in place keeping insertion order, and fresh keys
are appended at the end.  Python sets are embedded as first-occurrence
deduplicated lists wherever iteration order matters only up to the proved
properties.  Machine floats appearing in the sources (`jaccard`, `cost_usd`)
are embedded as rationals; the comparisons the sources perform are exact at
the relevant scales, as noted at each site.
-/

namespace NB

/-- Python dict lookup: first binding of the key (bindings are unique in an
actual dict, so first = only). -/
def alookup {β : Type} (l : List (String × β)) (k : String) : Option β :=
  match l with
  | [] => none
  | (k', v) :: rest => if k' = k then some v else alookup rest k

/-- Python dict lookup for `Nat` keys. -/
def nlookup {β : Type} (l : List (Nat × β)) (k : Nat) : Option β :=
  match l with
  | [] => none
  | (k', v) :: rest => if k' = k then some v else nlookup rest k

/-- Python dict assignment `d[k] = v`: replace in place if the key exists,
else append the new binding at the end (insertion order semantics). -/
def aset {β : Type} (l : List (String × β)) (k : String) (v : β) :
    List (String × β) :=
  match l with
  | [] => [(k, v)]
  | (k', v') :: rest => if k' = k then (k, v) :: rest else (k', v') :: aset rest k v

/-- Python `d.setdefault(k, []).append(x)`: append `x` to the list stored at
`k`, creating the binding (at the end) when absent. -/
def asetdefApp {β : Type} (l : List (String × List β)) (k : String) (x : β) :
    List (String × List β) :=
  match l with
  | [] => [(k, [x])]
  | (k', v') :: rest =>
    if k' = k then (k', v' ++ [x]) :: rest else (k', v') :: asetdefApp rest k x

/-- First-occurrence deduplication, the iteration-ordered image of a Python
set built by successive insertion (structural formulation: dedup the tail,
then drop the head's later occurrences). -/
def ldedup {α : Type} [DecidableEq α] : List α → List α
  | [] => []
  | x :: rest => x :: (ldedup rest).filter (· ≠ x)

/-- Number of distinct elements, the embedding of `len(set(xs))`. -/
def distinctCount {α : Type} [DecidableEq α] (l : List α) : Nat :=
  (ldedup l).length

/-! ## `apps/clustering/models.py` — constants -/

def CLUSTER_MAX_SIZE : Nat := 10
def TITLE_MIN_LENGTH : Nat := 10
def FUZZY_MIN_WORDS : Nat := 5
/-- The source constant `FUZZY_SIMILARITY_THRESHOLD = 0.6`; the float literal
is exactly representable comparisons-wise at the scales used (small integer
numerators/denominators), so the rational `3/5` is a faithful embedding. -/
def FUZZY_SIMILARITY_THRESHOLD : ℚ := mkRat 3 5

/-- Stopword list from `apps/clustering/models.py` (the source string contains
`its` twice; the frozenset collapses it). -/
def STOPWORDS : List String :=
  ["a", "an", "the", "and", "or", "but", "in", "on", "at", "to", "for", "of",
   "is", "it", "by", "with", "from", "as", "be", "was", "were", "are", "this",
   "that", "have", "has", "had", "do", "does", "did", "will", "would", "could",
   "should", "may", "might", "can", "shall", "not", "no", "its", "his", "her",
   "their", "our", "your", "my", "been", "being"]

/-! ## `normalize_title` -/

/-- Python regex `\w` membership (ASCII fragment: letters, digits,
underscore). -/
def isWordChar (c : Char) : Bool := c.isAlphanum || c = '_'

/-- Python `str.strip()`: drop leading and trailing whitespace. -/
def pyStrip (l : List Char) : List Char :=
  (l.dropWhile Char.isWhitespace).reverse.dropWhile Char.isWhitespace |>.reverse

/-- Embedding of `re.sub(r"\s+", " ", s)`: every maximal run of whitespace
becomes a single space. -/
def collapseWS : List Char → List Char
  | [] => []
  | [c] => if c.isWhitespace then [' '] else [c]
  | c1 :: c2 :: rest =>
    if c1.isWhitespace && c2.isWhitespace then collapseWS (c2 :: rest)
    else (if c1.isWhitespace then ' ' else c1) :: collapseWS (c2 :: rest)

/-- Embedding of `normalize_title` from `apps/clustering/models.py`:
lowercase and strip, delete characters that are neither word characters nor
whitespace (`re.sub(r"[^\w\s]", "", t)`), then collapse whitespace runs to a
single space. -/
def normalize_title (title : String) : String :=
  let t1 := (title.toList.map Char.toLower)
  let t2 := pyStrip t1
  let t3 := t2.filter (fun c => isWordChar c || c.isWhitespace)
  String.mk (collapseWS t3)

/-- Helper scanner for `pyWords`: accumulate the current word (reversed) and
cut at whitespace. -/
def pyWordsAux (cur : List Char) : List Char → List String
  | [] => if cur.isEmpty then [] else [String.mk cur.reverse]
  | c :: rest =>
    if c.isWhitespace then
      if cur.isEmpty then pyWordsAux [] rest
      else String.mk cur.reverse :: pyWordsAux [] rest
    else pyWordsAux (c :: cur) rest

/-- Python `str.split()`: split on whitespace runs, dropping empty pieces. -/
def pyWords (s : String) : List String :=
  pyWordsAux [] s.toList

/-- Python `str.startswith`. -/
def pyStartsWith (s pre : String) : Bool :=
  s.toList.take pre.toList.length == pre.toList

/-- Python-style suffix test / the `$`-anchored literal match. -/
def pyEndsWith (s suf : String) : Bool :=
  s.toList.reverse.take suf.toList.length == suf.toList.reverse

/-- Drop the first `n` characters of a string. -/
def pyDrop (s : String) (n : Nat) : String :=
  String.mk (s.toList.drop n)

/-- Drop the last `n` characters of a string. -/
def pyDropRight (s : String) (n : Nat) : String :=
  String.mk ((s.toList.reverse.drop n).reverse)

/-- Embedding of `title_significant_words`: the set (first-occurrence list) of
normalized words longer than 2 characters that are not stopwords. -/
def title_significant_words (title : String) : List String :=
  ldedup (((pyWords (normalize_title title)).filter
    (fun w => w ∉ STOPWORDS && w.length > 2)))

/-- Embedding of `story_guid_hash`: the part after the first `:`
(`story_hash.split(":", 1)[1]`), or the whole hash when no colon occurs. -/
def story_guid_hash (story_hash : String) : String :=
  let l := story_hash.toList
  if ':' ∈ l then String.mk ((l.dropWhile (· ≠ ':')).tail) else story_hash

/-- Embedding of `resolve_feed_id`: with a truthy (nonempty) map, look the
feed up with itself as default; otherwise return the feed unchanged. -/
def resolve_feed_id (feed_id : Nat) (original_feed_map : List (Nat × Nat)) : Nat :=
  if original_feed_map.isEmpty then feed_id
  else (nlookup original_feed_map feed_id).getD feed_id

/-! ## Union-find (the nested `find`/`union` of the source, with the same
path-halving step `parent[x] = parent[parent[x]]`).  The `while` loop is run
on fuel; every call site passes the map size, which bounds the chain length
in every state the source reaches. -/

def ufFind (fuel : Nat) (parent : List (String × String)) (x : String) :
    String × List (String × String) :=
  match fuel with
  | 0 => (x, parent)
  | fuel + 1 =>
    match alookup parent x with
    | none => (x, parent)
    | some px =>
      if px = x then (x, parent)
      else
        let pp := (alookup parent px).getD px
        ufFind fuel (aset parent x pp) pp

/-- The source `union(a, b)`: `parent[find(a)] = find(b)` when the two roots
differ. -/
def ufUnion (parent : List (String × String)) (a b : String) :
    List (String × String) :=
  let (ra, p1) := ufFind parent.length parent a
  let (rb, p2) := ufFind p1.length p1 b
  if ra = rb then p2 else aset p2 ra rb

/-! ## `find_title_clusters` -/

/-- The story dicts consumed by the clustering engine
(`{'story_hash', 'story_feed_id', 'story_title', 'story_date'}`, cf. the
construction in `apps/clustering/tasks.py`).  `story_date` is an optional
timestamp; the source reads it as `s.get("story_date") or 0`. -/
structure Story where
  story_hash : String
  story_feed_id : Nat
  story_title : String
  story_date : Option Nat
deriving DecidableEq, Repr

/-- Placeholder for `story_by_hash[h]` lookups; every call site passes a hash
that is a key of the dict (members come from `parent`, whose keys are story
hashes), so the default is never read in a source-reachable state. -/
def junkStory : Story := ⟨"", 0, "", none⟩

/-- Tier 1 grouping: `title_groups.setdefault(norm, []).append(s)` for each story
whose normalized title is nonempty and at least `TITLE_MIN_LENGTH` long. -/
def buildTitleGroups (stories : List Story) : List (String × List Story) :=
  stories.foldl
    (fun groups s =>
      let norm := normalize_title s.story_title
      if norm = "" ∨ norm.length < TITLE_MIN_LENGTH then groups
      else asetdefApp groups norm s)
    []

/-- The dict comprehension `{s['story_hash']: s for s in stories}` (later
entries overwrite earlier ones, first position kept). -/
def buildStoryByHash (stories : List Story) : List (String × Story) :=
  stories.foldl (fun d s => aset d s.story_hash s) []

/-- Initial union-find: every story with a valid (nonempty, length ≥ 10)
normalized title becomes its own parent. -/
def buildParent0 (stories : List Story) : List (String × String) :=
  stories.foldl
    (fun p s =>
      let norm := normalize_title s.story_title
      if norm ≠ "" ∧ TITLE_MIN_LENGTH ≤ norm.length then aset p s.story_hash s.story_hash
      else p)
    []

/-- One tier-A group: keep one representative per GUID (`guid_reps`, new keys
appended, existing kept), require ≥ 2 distinct resolved feeds among the
representatives, then union every representative with the first one. -/
def tierAGroupStep (ofm : List (Nat × Nat)) (parent : List (String × String))
    (group : List Story) : List (String × String) :=
  let guid_reps := group.foldl
    (fun reps s =>
      let guid := story_guid_hash s.story_hash
      if (alookup reps guid).isSome then reps else reps ++ [(guid, s)])
    []
  let deduped_group := guid_reps.map Prod.snd
  let rfids := ldedup (deduped_group.map (fun s => resolve_feed_id s.story_feed_id ofm))
  if rfids.length < 2 then parent
  else
    match deduped_group with
    | [] => parent
    | s0 :: rest =>
      rest.foldl (fun p si => ufUnion p s0.story_hash si.story_hash) parent

/-- Tier A: union exact-title matches group by group. -/
def tierAParent (stories : List Story) (ofm : List (Nat × Nat)) :
    List (String × String) :=
  (buildTitleGroups stories).foldl
    (fun par e => tierAGroupStep ofm par e.2) (buildParent0 stories)

/-- One entry of the tier-B `word_index`: `(story_hash, feed_id, words)`. -/
structure WIEntry where
  h : String
  fid : Nat
  words : List String
deriving DecidableEq, Repr

def junkWIE : WIEntry := ⟨"", 0, []⟩

/-- The tier-B `word_index`: stories whose hash is a key of `parent` (the
source checks `if h not in parent: continue` — key membership only) and whose
significant-word set has at least `FUZZY_MIN_WORDS` elements, in story
order. -/
def buildWordIndex (parent : List (String × String)) (stories : List Story) :
    List WIEntry :=
  stories.filterMap
    (fun s =>
      if (alookup parent s.story_hash).isSome then
        let words := title_significant_words s.story_title
        if FUZZY_MIN_WORDS ≤ words.length then some ⟨s.story_hash, s.story_feed_id, words⟩
        else none
      else none)

/-- Key list of the inverted defaultdict: words in order of first appearance
while iterating `word_index` entries and each entry's word list. -/
def invertedWords (wi : List WIEntry) : List String :=
  ldedup ((wi.map WIEntry.words).flatten)

/-- Posting list of one word: the indices of the `word_index` entries that
contain it, in increasing order.  This is exactly the list the source's
`inverted[w].append(idx)` loop builds: each index is appended at most once
per word (the word sets are deduplicated) and indices arrive in increasing
order. -/
def invertedPostings (wi : List WIEntry) (w : String) : List Nat :=
  ((wi.enum).filter (fun p => w ∈ p.2.words)).map Prod.fst

/-- The inverted index as an association list in defaultdict iteration
order. -/
def invertedIndex (wi : List WIEntry) : List (String × List Nat) :=
  (invertedWords wi).map (fun w => (w, invertedPostings wi w))

/-- All ordered position pairs of a list, in the order of the source's nested
`for i / for j in range(i+1, …)` loops. -/
def pairsOf : List Nat → List (Nat × Nat)
  | [] => []
  | a :: rest => rest.map (fun b => (a, b)) ++ pairsOf rest

/-- The `if idx_a > idx_b: swap` normalization. -/
def pairNorm (p : Nat × Nat) : Nat × Nat := if p.2 < p.1 then (p.2, p.1) else p

/-- Candidate pairs before the `seen_pairs` dedup: for every inverted-index
word whose posting list has at most 50 entries, every ordered pair of its
postings. -/
def tierBCandidatePairs (wi : List WIEntry) : List (Nat × Nat) :=
  (((invertedIndex wi).filter (fun e => ¬ 50 < e.2.length)).map
    (fun e => (pairsOf e.2).map pairNorm)).flatten

/-- Jaccard similarity of two (deduplicated) word lists, exact.  The float
division the source performs agrees with the rational comparison against
`0.6` at these magnitudes: numerator and denominator are small integers, so
the quotient rounds to the double nearest `a/b`, which is on the same side of
(or equal to) the double nearest `3/5` exactly when `a/b ⋚ 3/5`. -/
def jaccardOf (a b : List String) : ℚ :=
  mkRat ((a.filter (· ∈ b)).length : ℤ) (distinctCount (a ++ b))

/-- The eligibility test applied to each candidate pair: distinct resolved
feeds, distinct GUID hashes, a nonzero union, and Jaccard at least the
threshold. -/
def tierBEligible (wi : List WIEntry) (ofm : List (Nat × Nat))
    (p : Nat × Nat) : Bool :=
  let ea := wi.getD p.1 junkWIE
  let eb := wi.getD p.2 junkWIE
  resolve_feed_id ea.fid ofm ≠ resolve_feed_id eb.fid ofm
    && story_guid_hash ea.h ≠ story_guid_hash eb.h
    && distinctCount (ea.words ++ eb.words) ≠ 0
    && FUZZY_SIMILARITY_THRESHOLD ≤ jaccardOf ea.words eb.words

/-- The pairs the tier-B loop unions.  The `seen_pairs` set is embedded as a
first-occurrence dedup: the source processes each normalized pair once, and
the per-pair checks read only `word_index` and the feed map, never the
union-find state, so collecting the pairs first is semantics-preserving. -/
def tierBUnionedPairs (wi : List WIEntry) (ofm : List (Nat × Nat)) :
    List (Nat × Nat) :=
  (ldedup (tierBCandidatePairs wi)).filter (tierBEligible wi ofm)

/-- Tier B: apply the fuzzy-match unions to the parent map. -/
def tierBParent (wi : List WIEntry) (ofm : List (Nat × Nat))
    (parent : List (String × String)) : List (String × String) :=
  (tierBUnionedPairs wi ofm).foldl
    (fun p pr => ufUnion p (wi.getD pr.1 junkWIE).h (wi.getD pr.2 junkWIE).h)
    parent

/-- The group collection `for h in parent: groups.setdefault(find(h), []).append(h)`
(each `find` call path-compresses the map it threads along). -/
def collectGroups (parent : List (String × String)) :
    List (String × List String) :=
  ((parent.map Prod.fst).foldl
    (fun st h =>
      let fr := ufFind st.2.length st.2 h
      (asetdefApp st.1 fr.1 h, fr.2))
    (([] : List (String × List String)), parent)).1

/-- Sort key for cluster members: `story_by_hash[h].get("story_date") or 0`. -/
def memberDateKey (sbh : List (String × Story)) (h : String) : Nat :=
  ((alookup sbh h).getD junkStory).story_date.getD 0

/-- Stable ascending insertion: `x` goes after every element whose key is not
greater, so equal keys keep their arrival order (as Python's stable sort
does). -/
def insertByKey (key : String → Nat) (x : String) : List String → List String
  | [] => [x]
  | y :: ys => if key x < key y then x :: y :: ys else y :: insertByKey key x ys

/-- Embedding of `members.sort(key=story_date or 0)`: a stable ascending
sort. -/
def sortByKey (key : String → Nat) (l : List String) : List String :=
  l.foldl (fun acc x => insertByKey key x acc) []

/-- The `guid_to_feed` dict of the final `find_title_clusters` filter: one
binding per first occurrence of a GUID among the members, mapping it to the
member's resolved feed (looked up in `story_by_hash`). -/
def guidFeedMapT (sbh : List (String × Story)) (ofm : List (Nat × Nat))
    (members : List String) : List (String × Nat) :=
  members.foldl
    (fun m h =>
      let guid := story_guid_hash h
      if (alookup m guid).isSome then m
      else
        m ++ [(guid,
          resolve_feed_id ((alookup sbh h).getD junkStory).story_feed_id ofm)])
    []

/-- The final filter of `find_title_clusters`: keep groups of ≥ 2 members
whose per-GUID first-occurrence feed map has ≥ 2 keys and ≥ 2 distinct
values; sort members by date and store the first `CLUSTER_MAX_SIZE` under the
earliest member's hash. -/
def titleValidClusters (sbh : List (String × Story)) (ofm : List (Nat × Nat))
    (groups : List (String × List String)) : List (String × List String) :=
  groups.foldl
    (fun clusters rg =>
      let members := rg.2
      if members.length < 2 then clusters
      else
        let g2f := guidFeedMapT sbh ofm members
        if g2f.length < 2 then clusters
        else if distinctCount (g2f.map Prod.snd) < 2 then clusters
        else
          match sortByKey (memberDateKey sbh) members with
          | [] => clusters
          | cid :: tail => aset clusters cid ((cid :: tail).take CLUSTER_MAX_SIZE))
    []

/-- Embedding of `find_title_clusters(stories, original_feed_map)`. -/
def find_title_clusters (stories : List Story) (ofm : List (Nat × Nat)) :
    List (String × List String) :=
  let sbh := buildStoryByHash stories
  let parentA := tierAParent stories ofm
  let wi := buildWordIndex parentA stories
  let parentB := tierBParent wi ofm parentA
  titleValidClusters sbh ofm (collectGroups parentB)

/-! ## `find_semantic_clusters` and `merge_clusters` -/

/-- The `guid_to_feed` dict of the validated collection shared (textually
duplicated) by `find_semantic_clusters` and `merge_clusters`: one binding per
first occurrence of a GUID among the members *that has a truthy feed* in the
feed map. -/
def guidFeedMapF (sfm : List (String × Nat)) (ofm : List (Nat × Nat))
    (members : List String) : List (String × Nat) :=
  members.foldl
    (fun m h =>
      let guid := story_guid_hash h
      if (alookup m guid).isSome then m
      else
        match alookup sfm h with
        | some f => if f ≠ 0 then m ++ [(guid, resolve_feed_id f ofm)] else m
        | none => m)
    []

/-- The validated cluster collection of `find_semantic_clusters` and
`merge_clusters` (both keep groups of ≥ 2 members whose guid-to-feed map has
≥ 2 keys and ≥ 2 distinct values, storing the first `CLUSTER_MAX_SIZE`
members, unsorted, under the group root). -/
def feedValidClusters (sfm : List (String × Nat)) (ofm : List (Nat × Nat))
    (groups : List (String × List String)) : List (String × List String) :=
  groups.foldl
    (fun clusters rg =>
      let members := rg.2
      if members.length < 2 then clusters
      else
        let g2f := guidFeedMapF sfm ofm members
        if g2f.length < 2 then clusters
        else if distinctCount (g2f.map Prod.snd) < 2 then clusters
        else aset clusters rg.1 (members.take CLUSTER_MAX_SIZE))
    []

/-- The chained unions `union(members[0], members[i])` for `i = 1…`. -/
def unionChain (parent : List (String × String)) : List String →
    List (String × String)
  | [] => parent
  | m0 :: rest => rest.foldl (fun p mi => ufUnion p m0 mi) parent

/-- Embedding of `find_semantic_clusters`.  The Elasticsearch call is the
external collaborator: `esHits story_hash` stands for the hit list
(`(_id, feed_id)`) the `more_like_this` query returns for that story; a story
whose query errored individually is a story with an empty hit list, and an
unavailable/disconnected ES is the `esUp = false` case (the source returns
`{}`). -/
def find_semantic_clusters (stories : List Story) (feed_ids : List Nat)
    (esUp : Bool) (esHits : String → List (String × Option Nat))
    (ofm : List (Nat × Nat)) : List (String × List String) :=
  if stories.isEmpty ∨ feed_ids.isEmpty then []
  else if ¬ esUp then []
  else
    let sfm0 := stories.foldl (fun m s => aset m s.story_hash s.story_feed_id) []
    let parent0 := stories.foldl (fun p s => aset p s.story_hash s.story_hash) []
    let st := stories.foldl
      (fun (st : List (String × Nat) × List (String × String)) story =>
        if (pyStrip story.story_title.toList).length < 10 then st
        else
          let story_rfid := resolve_feed_id story.story_feed_id ofm
          let search_feed_ids :=
            feed_ids.filter (fun fid => resolve_feed_id fid ofm ≠ story_rfid)
          if search_feed_ids.isEmpty then st
          else
            (esHits story.story_hash).foldl
              (fun st hit =>
                if hit.1 = story.story_hash then st
                else if story_guid_hash hit.1 = story_guid_hash story.story_hash then st
                else
                  let sfm := match hit.2 with
                    | some f => if f ≠ 0 then aset st.1 hit.1 f else st.1
                    | none => st.1
                  let par := if (alookup st.2 hit.1).isSome then st.2
                    else st.2 ++ [(hit.1, hit.1)]
                  (sfm, ufUnion par story.story_hash hit.1))
              st)
      (sfm0, parent0)
    feedValidClusters st.1 ofm (collectGroups st.2)

/-- The `all_hashes` set of `merge_clusters`, in insertion order (title
members first, then semantic members). -/
def mergeAllHashes (tc sc : List (String × List String)) : List String :=
  ldedup ((tc.map Prod.snd).flatten ++ (sc.map Prod.snd).flatten)

/-- The feed map after `merge_clusters` fills hashes unknown to
`story_feed_map` from the MongoDB story store (`mongoFeeds`). -/
def mergeFeedMap (tc sc : List (String × List String))
    (sfm mongoFeeds : List (String × Nat)) : List (String × Nat) :=
  ((mergeAllHashes tc sc).filter (fun h => (alookup sfm h).isNone)).foldl
    (fun m h =>
      match alookup mongoFeeds h with
      | some f => aset m h f
      | none => m)
    sfm

/-- Embedding of `merge_clusters(title_clusters, semantic_clusters,
story_feed_map, original_feed_map)`.  `mongoFeeds` stands for the MongoDB
`MStory` lookups used to fill feed ids missing from `story_feed_map`. -/
def merge_clusters (tc sc : List (String × List String))
    (sfm : List (String × Nat)) (mongoFeeds : List (String × Nat))
    (ofm : List (Nat × Nat)) : List (String × List String) :=
  let all_hashes := mergeAllHashes tc sc
  if all_hashes.isEmpty then []
  else
    let parent0 := all_hashes.map (fun h => (h, h))
    let parent1 := tc.foldl (fun p e => unionChain p e.2) parent0
    let parent2 := sc.foldl (fun p e => unionChain p e.2) parent1
    let groups := collectGroups parent2
    if sfm.isEmpty then
      groups.foldl
        (fun cl rg =>
          if 2 ≤ rg.2.length then aset cl rg.1 (rg.2.take CLUSTER_MAX_SIZE) else cl)
        []
    else
      feedValidClusters (mergeFeedMap tc sc sfm mongoFeeds) ofm groups

/-! ## `apps/briefing/summary.py` — prompt construction -/

/-- The `LENGTH_INSTRUCTIONS` table (verbatim). -/
def LENGTH_INSTRUCTIONS : List (String × String) :=
  [("short",
    "Include ALL sections listed above that have relevant stories, but keep each story to a single " ++
    "sentence or headline. Under 300 words total."),
   ("medium",
    "Include ALL sections listed above that have relevant stories. " ++
    "Keep each story to 1-2 sentences. Under 600 words total."),
   ("detailed",
    "Include ALL sections listed above that have relevant stories. " ++
    "Write 2-3 sentences of analysis per story. Explain connections between stories where relevant. " ++
    "Up to 1000 words.")]

/-- The `STYLE_INSTRUCTIONS` table (verbatim). -/
def STYLE_INSTRUCTIONS : List (String × String) :=
  [("editorial",
    "Write in a narrative editorial style with flowing prose that connects stories thematically. " ++
    "Wrap each story paragraph in a <p> tag. Do NOT use <ul> or <li> tags."),
   ("bullets",
    "Write each story as a concise one-sentence summary. Group by the section headers below. " ++
    "Wrap each story in its own <p> tag. Do NOT use <ul> or <li> tags."),
   ("headlines",
    "List each story as a headline with a single explanatory sentence beneath it. " ++
    "Group by the section headers below. " ++
    "Wrap each story in its own <p> tag. Do NOT use <ul> or <li> tags.")]

/-- The `SECTION_PROMPTS` table: the nine fixed sections in source (dict
insertion) order, each with its prompt line (verbatim). -/
def SECTION_PROMPTS : List (String × String) :=
  [("trending_unread",
    "\"Stories you missed\" — CATEGORY: trending_unread. Popular stories the reader hasn't read yet."),
   ("long_read",
    "\"Long reads for later\" — CATEGORY: long_read. Longer articles worth setting time aside for. Use the WORD_COUNT field to judge which stories qualify as long reads relative to other stories."),
   ("classifier_match",
    "\"Based on your interests\" — CATEGORY: classifier_match. " ++
    "Stories matching topics, authors, or feeds the reader has trained as interesting. " ++
    "After each story link, include ALL matching classifiers from the MATCHES field as pills. " ++
    "For each match in MATCHES, output this exact HTML: " ++
    "<span class=\"NB-classifier NB-classifier-TYPE NB-classifier-like NB-briefing-classifier\">" ++
    "<div class=\"NB-classifier-icon-like\"></div>" ++
    "<label><b>TYPE_TITLE: </b><span>VALUE</span></label>" ++
    "</span> " ++
    "where TYPE is the prefix before the colon (feed, author, tag, or title), " ++
    "TYPE_TITLE is the ALL CAPS version (SITE for feed, AUTHOR, TAG, or TITLE), " ++
    "and VALUE is the text after the colon. Include all matches, not just the first one."),
   ("follow_up",
    "\"Follow-ups\" — CATEGORY: follow_up. New posts from feeds where the reader recently read other stories."),
   ("trending_global",
    "\"Trending across NewsBlur\" — CATEGORY: trending_global. Widely-read stories from across the platform."),
   ("duplicates",
    "\"Common stories\" — CATEGORY: duplicates. Stories covered by multiple feeds. For each story, show the shared headline then list each source's unique angle or perspective as sub-items."),
   ("quick_catchup",
    "\"Quick catch-up\" — KEY: quick_catchup. This is a special section. Select the 3-5 most important stories from the entire briefing and write a 1-2 sentence TL;DR for each. Link to each story using the anchor tag format specified below. This section should appear first."),
   ("emerging_topics",
    "\"Emerging topics\" — CATEGORY: emerging_topics. Look across all the stories for topics that appear multiple times or are getting increasing coverage. Group these stories under the topic and explain why it's trending."),
   ("contrarian_views",
    "\"Contrarian views\" — CATEGORY: contrarian_views. Look for stories where different feeds have notably different perspectives on the same topic. Highlight the disagreement and present each side.")]

/-- Modelled from the spec: `DEFAULT_SECTIONS` is defined in
`apps/briefing/models.py`, which is not among the provided sources.  Per the
spec's fixed section set (§4.3) and the repository's tests (which assert that
all nine fixed toggles are true in `DEFAULT_SECTIONS`), it maps each fixed
section key to `True`.  The theorems below only reach this value through the
`sections`-empty branch, which their hypotheses exclude. -/
def DEFAULT_SECTIONS : List (String × Bool) :=
  SECTION_PROMPTS.map (fun kp => (kp.1, true))

/-- The read `active_sections.get(key, False)`. -/
def actGet (act : List (String × Bool)) (k : String) : Bool :=
  (alookup act k).getD false

/-- The section bodies selected by `_build_system_prompt`, keyed: first the
fixed sections whose toggle is on, in `SECTION_PROMPTS` order, then the
enabled nonempty custom sections in index order.  The source's running `num`
counter equals one plus the position in this concatenated list. -/
def selectedSectionEntries (act : List (String × Bool))
    (customPrompts : List String) : List (String × String) :=
  SECTION_PROMPTS.filter (fun kp => actGet act kp.1)
    ++ (customPrompts.enum).filterMap
      (fun ip =>
        let custom_key := "custom_" ++ toString (ip.1 + 1)
        if actGet act custom_key && ip.2 ≠ "" then
          some (custom_key,
            "Keyword section (KEY: " ++ custom_key ++ ") — The reader has a keyword section that matches stories " ++
            "with these keywords: \"" ++ ip.2 ++ "\". Generate a section header based on the keywords. " ++
            "ONLY include stories whose CATEGORY field is set to " ++ custom_key ++ ".")
        else none)

/-- The numbered `section_lines` of `_build_system_prompt`. -/
def sectionLines (act : List (String × Bool)) (customPrompts : List String) :
    List String :=
  ((selectedSectionEntries act customPrompts).enum).map
    (fun ie => toString (ie.1 + 1) ++ ". " ++ ie.2.2)

/-- A `d.get(k, d[fallbackKey])` read used for the length/style tables. -/
def tableGet (table : List (String × String)) (k fallback : String) : String :=
  (alookup table k).getD ((alookup table fallback).getD "")

/-- Embedding of `_build_system_prompt`. -/
def buildSystemPrompt (summary_length summary_style : String)
    (sections : List (String × Bool)) (customPrompts : List String) : String :=
  let length_instruction := tableGet LENGTH_INSTRUCTIONS summary_length "medium"
  let style_instruction := tableGet STYLE_INSTRUCTIONS summary_style "medium"
  let active_sections := if sections.isEmpty then DEFAULT_SECTIONS else sections
  let lines := sectionLines active_sections customPrompts
  let sections_text :=
    if lines.isEmpty then "Include all stories in a single section."
    else String.intercalate "\n" lines
  "You are a personal news editor writing a daily briefing for a NewsBlur reader.\n" ++
  "You are given stories from their RSS feeds, each annotated with a CATEGORY indicating why\n" ++
  "it was selected for them.\n\n" ++
  "Organize the briefing into sections based on these categories. Use ONLY these section headers\n" ++
  "(as <h3 data-section=\"CATEGORY_KEY\"> tags, where CATEGORY_KEY is the category value like\n" ++
  "\"trending_unread\" or \"classifier_match\"). You MUST include every section listed below if there\n" ++
  "are stories that match it. Do not omit sections to save space:\n\n" ++
  sections_text ++
  "\n\nWithin each section, briefly explain WHY these stories matter to the reader — not just what\n" ++
  "they are about. Focus on what makes each story worth reading.\n\n" ++
  length_instruction ++
  "\n\n" ++
  style_instruction ++
  "\n\nReference each story by wrapping its title in an anchor tag like:\n" ++
  "<a class=\"NB-briefing-story-link\" data-story-hash=\"HASH\">Story Title</a>\n\n" ++
  "Output valid HTML. Use <h3 data-section=\"CATEGORY_KEY\"> for section headers.\n" ++
  "Do not use markdown. Do not wrap in code fences. Do not add any preamble.\n" ++
  "Your very first character must be \"<\". Start directly with <div class=\"NB-briefing-summary\">.\n" ++
  "Wrap everything in a <div class=\"NB-briefing-summary\"> tag."

/-! ## `generate_briefing_summary` -/

/-- A scored candidate as produced by `apps/briefing/scoring.py` (the fields
`generate_briefing_summary` reads). -/
structure ScoredStory where
  story_hash : String
  category : String
  is_read : Bool
  content_word_count : Nat
  classifier_matches : List String
deriving DecidableEq, Repr

/-- The `MStory` fields read while building the user prompt.  `dateStr`
stands for the already-formatted `strftime` output; `content` for the
(possibly decompressed) story content. -/
structure MStoryRec where
  story_feed_id : Nat
  story_title : String
  story_author_name : String
  dateStr : Option String
  content : String
deriving DecidableEq, Repr

/-- Embedding of the `re.sub(r"<[^>]+>", " ", content)` tag strip. -/
def stripTags (fuel : Nat) (l : List Char) : List Char :=
  match fuel, l with
  | 0, l => l
  | _ + 1, [] => []
  | f + 1, c :: rest =>
    if c = '<' then
      let inside := rest.takeWhile (· ≠ '>')
      if inside.isEmpty ∨ inside.length = rest.length then c :: stripTags f rest
      else ' ' :: stripTags f (rest.drop (inside.length + 1))
    else c :: stripTags f rest

/-- Embedding of `_get_content_excerpt`: strip tags, collapse whitespace and
strip, truncate to 300 characters with an ellipsis. -/
def getContentExcerpt (content : String) (max_chars : Nat := 300) : String :=
  if content = "" then ""
  else
    let text := pyStrip (collapseWS (stripTags content.length content.toList))
    if max_chars < text.length then String.mk (text.take max_chars) ++ "..."
    else String.mk text

/-- The `category_overrides` dict: disabled non-custom, non-default categories
are remapped to `trending_global`. -/
def categoryOverrides (act : List (String × Bool)) (scored : List ScoredStory) :
    List (String × String) :=
  scored.foldl
    (fun m sc =>
      let category := sc.category
      if pyStartsWith category "custom_" ∨ category = "trending_global" then m
      else if actGet act category then m
      else aset m sc.story_hash "trending_global")
    []

/-- The CATEGORY value written into a candidate's user-prompt line:
`category_overrides.get(story_hash, scored["category"])`. -/
def storyLineCategory (overrides : List (String × String)) (sc : ScoredStory) :
    String :=
  (alookup overrides sc.story_hash).getD sc.category

/-- One user-prompt story line (verbatim format string). -/
def renderStoryLine (sc : ScoredStory) (story : MStoryRec) (feed_title : String)
    (cat : String) : String :=
  let line :=
    "- HASH: " ++ sc.story_hash ++
    "\n  TITLE: " ++ (if story.story_title = "" then "Untitled" else story.story_title) ++
    "\n  FEED: " ++ feed_title ++
    "\n  AUTHOR: " ++ (if story.story_author_name = "" then "Unknown" else story.story_author_name) ++
    "\n  DATE: " ++ story.dateStr.getD "Unknown" ++
    "\n  CATEGORY: " ++ cat ++
    "\n  READ_STATUS: " ++ (if sc.is_read then "read" else "unread") ++
    "\n  WORD_COUNT: " ++ toString sc.content_word_count ++
    "\n  EXCERPT: " ++ getContentExcerpt story.content
  if sc.classifier_matches.isEmpty then line
  else line ++ "\n  MATCHES: " ++ String.intercalate ", " sc.classifier_matches

/-- The `story_lines` list: one line per scored candidate whose story is
found in the story store. -/
def buildStoryLines (overrides : List (String × String))
    (storyDB : List (String × MStoryRec)) (feedDB : List (Nat × String))
    (scored : List ScoredStory) : List String :=
  scored.filterMap
    (fun sc =>
      match alookup storyDB sc.story_hash with
      | none => none
      | some story =>
        some (renderStoryLine sc story
          ((nlookup feedDB story.story_feed_id).getD "Unknown Feed")
          (storyLineCategory overrides sc)))

/-- Modelled from the spec: the provider registry of `apps/ask_ai/providers.py`
(`BRIEFING_MODELS`, `DEFAULT_BRIEFING_MODEL`, `get_briefing_provider`,
`LLM_EXCEPTIONS`) is not among the provided sources.  Per spec §4.3 a
registry maps model names to provider handle, provider-specific model id and
vendor tag; each provider exposes `is_configured()`,
`generate(messages, model_id, max_tokens)` and `get_last_usage()`; a declared
set of provider exceptions exists.  A provider call is embedded as data: its
configuration flag, the outcome of `generate` (a result, a declared
`LLM_EXCEPTIONS` failure, or any other exception) and its reported usage. -/
inductive LLMOutcome where
  | ok (html : String)
  | declaredError
  | otherError
deriving DecidableEq, Repr

structure LLMProvider where
  configured : Bool
  outcome : LLMOutcome
  last_usage : Nat × Nat
deriving DecidableEq, Repr

structure ModelCfg where
  vendor : String
  display_name : String
deriving DecidableEq, Repr

structure ProviderEnv where
  models : List (String × ModelCfg)
  default_model : String
  get_briefing_provider : String → LLMProvider × String

/-- The request data handed to `provider.generate`. -/
structure LLMRequest where
  system_prompt : String
  user_prompt : String
  model_id : String
  max_tokens : Nat
deriving DecidableEq, Repr

structure BriefingMeta where
  model_name : String
  display_name : String
  input_tokens : Nat
  output_tokens : Nat
deriving DecidableEq, Repr

/-- The three value shapes `generate_briefing_summary` returns: the single
value `None`, the pair `(None, None)`, and the pair `(summary_html,
metadata)`. -/
inductive GBSResult where
  | noneSingle
  | nonePairNone
  | ok (html : String) (meta : BriefingMeta)
deriving DecidableEq, Repr

/-- Embedding of the code-fence strip: `strip()`, then if the text starts
with three backquotes remove the opening fence (backquotes, word characters,
one optional newline) and a trailing fence (optional newline, backquotes,
trailing whitespace), then `strip()` again. -/
def stripCodeFences (s : String) : String :=
  let s1 := pyStrip s.toList
  if s1.take 3 = ['`', '`', '`'] then
    let l := (s1.drop 3).dropWhile isWordChar
    let l := match l with
      | '\n' :: rest => rest
      | _ => l
    let r := l.reverse.dropWhile Char.isWhitespace
    let l2 :=
      if r.take 3 = ['`', '`', '`'] then
        let r2 := r.drop 3
        (match r2 with
          | '\n' :: rest => rest
          | _ => r2).reverse
      else l
    String.mk (pyStrip l2)
  else String.mk s1

/-- The model-name selection
`model if model and model in BRIEFING_MODELS else DEFAULT_BRIEFING_MODEL`. -/
def chosenModelName (env : ProviderEnv) (model : Option String) : String :=
  match model with
  | some m =>
    if m ≠ "" ∧ (alookup env.models m).isSome then m else env.default_model
  | none => env.default_model

/-- The provider fallback: keep the chosen provider when configured; when it
is not and the chosen model is not the default, switch to the default model's
provider; the result may still be unconfigured. -/
def pickProvider (env : ProviderEnv) (model_name0 : String) :
    LLMProvider × String × String :=
  let pm0 := env.get_briefing_provider model_name0
  if pm0.1.configured then (pm0.1, pm0.2, model_name0)
  else if model_name0 ≠ env.default_model then
    let pm1 := env.get_briefing_provider env.default_model
    (pm1.1, pm1.2, env.default_model)
  else (pm0.1, pm0.2, model_name0)

/-- Embedding of `generate_briefing_summary`.  The first component is the
returned value (`Except.error` embeds an exception outside `LLM_EXCEPTIONS`
propagating to the caller); the second is the request issued to the provider,
when the control flow reaches `provider.generate`. -/
def generate_briefing_summary (env : ProviderEnv) (scored : List ScoredStory)
    (storyDB : List (String × MStoryRec)) (feedDB : List (Nat × String))
    (briefing_dateStr : String) (summary_length summary_style : String)
    (sections : List (String × Bool)) (customPrompts : List String)
    (model : Option String) : Except Unit GBSResult × Option LLMRequest :=
  let active_sections := if sections.isEmpty then DEFAULT_SECTIONS else sections
  let overrides := categoryOverrides active_sections scored
  let story_lines := buildStoryLines overrides storyDB feedDB scored
  if story_lines.isEmpty then (.ok .noneSingle, none)
  else
    let user_prompt :=
      "Today's date: " ++ briefing_dateStr ++
      "\n\nStories ranked by importance:\n\n" ++
      String.intercalate "\n\n" story_lines
    match pickProvider env (chosenModelName env model) with
    | (provider, model_id, model_name) =>
      if ¬ provider.configured then (.ok .noneSingle, none)
      else
        let system_prompt :=
          buildSystemPrompt summary_length summary_style sections customPrompts
        let num_sections := (sections.filter (fun kv => kv.2)).length
        let max_tokens := min (1024 + (scored.length * 80) + (num_sections * 100)) 4096
        let req : LLMRequest := ⟨system_prompt, user_prompt, model_id, max_tokens⟩
        match provider.outcome with
        | .ok html =>
          let summary_html := stripCodeFences html
          let cfg := alookup env.models model_name
          let meta : BriefingMeta :=
            ⟨model_name, (cfg.map ModelCfg.display_name).getD model_name,
              provider.last_usage.1, provider.last_usage.2⟩
          (.ok (.ok summary_html meta), some req)
        | .declaredError => (.ok .nonePairNone, some req)
        | .otherError => (.error (), some req)

/-! ## Section processor (`normalize_section_key`, `extract_section_summaries`,
`filter_disabled_sections`) -/

/-- Modelled from the spec: `VALID_SECTION_KEYS` is defined in
`apps/briefing/models.py`, which is not among the provided sources.  Per spec
§4.3 the valid keys are the nine fixed sections plus the five custom keyword
sections (the repository's tests assert the set has 14 elements). -/
def VALID_SECTION_KEYS : List String :=
  ["trending_unread", "long_read", "classifier_match", "follow_up",
   "trending_global", "duplicates", "quick_catchup", "emerging_topics",
   "contrarian_views", "custom_1", "custom_2", "custom_3", "custom_4",
   "custom_5"]

/-- Embedding of `re.sub(r"_+", "_", s)`: collapse runs of underscores. -/
def collapseUnders : List Char → List Char
  | [] => []
  | [c] => [c]
  | c1 :: c2 :: rest =>
    if c1 = '_' && c2 = '_' then collapseUnders (c2 :: rest)
    else c1 :: collapseUnders (c2 :: rest)

/-- Python `s.strip("_")`. -/
def stripUnders (l : List Char) : List Char :=
  (l.dropWhile (· = '_')).reverse.dropWhile (· = '_') |>.reverse

/-- Embedding of `normalize_section_key`: lowercase/strip, hyphens to
underscores, collapse and trim underscores; exact match against
`VALID_SECTION_KEYS`, else fuzzy match with separators removed; `None` when
nothing matches. -/
def normalize_section_key (key : String) : Option String :=
  if key = "" then none
  else
    let normalized := stripUnders (collapseUnders
      ((pyStrip (key.toList.map Char.toLower)).map
        (fun c => if c = '-' then '_' else c)))
    let normStr := String.mk normalized
    if normStr ∈ VALID_SECTION_KEYS then some normStr
    else
      let key_no_sep := normalized.filter (· ≠ '_')
      match VALID_SECTION_KEYS.filter
        (fun vk => vk.toList.filter (· ≠ '_') = key_no_sep) with
      | [] => none
      | vk :: _ => some vk

/-- The literal `data-section="` the extraction pattern anchors on. -/
def dsLit : List Char := "data-section=\"".toList

/-- The lazy gap `[^>]*?` before `data-section="`: scan forward, stopping at
the first position where the literal matches; fail on `>` or end of input. -/
def findDataSection (acc l : List Char) : Option (List Char × List Char) :=
  if l.take 14 = dsLit then some (acc.reverse, l.drop 14)
  else
    match l with
    | [] => none
    | c :: rest => if c = '>' then none else findDataSection (c :: acc) rest

/-- One attempt of the extraction regex
`(<h3\s[^>]*?data-section="([^"]+)"[^>]*>)` at the head of the input:
on success, the matched tag, the captured key, and the remaining input. -/
def matchH3At (l : List Char) : Option (List Char × List Char × List Char) :=
  match l with
  | '<' :: 'h' :: '3' :: c :: rest =>
    if c.isWhitespace then
      match findDataSection [] rest with
      | some (gap, afterLit) =>
        let key := afterLit.takeWhile (· ≠ '"')
        if key.isEmpty ∨ key.length = afterLit.length then none
        else
          let afterKey := afterLit.drop (key.length + 1)
          let tailPart := afterKey.takeWhile (· ≠ '>')
          if tailPart.length = afterKey.length then none
          else
            some ('<' :: 'h' :: '3' :: c :: gap ++ dsLit ++ key ++ '"' :: tailPart ++ ['>'],
              key, afterKey.drop (tailPart.length + 1))
      | none => none
    else none
  | _ => none

/-- The `re.split` pass: the text before the first header match, and the
`(full h3 tag, section key, content until the next header)` triples the
source's `while` loop walks (it visits every triple).  Fueled scan; fuel is
always called with the input length, which each step strictly decreases. -/
def splitH3 (fuel : Nat) (l : List Char) :
    List Char × List (List Char × List Char × List Char) :=
  match fuel with
  | 0 => (l, [])
  | f + 1 =>
    match matchH3At l with
    | some (tag, key, after) =>
      let rec2 := splitH3 f after
      ([], (tag, key, rec2.1) :: rec2.2)
    | none =>
      match l with
      | [] => ([], [])
      | c :: rest =>
        let rec2 := splitH3 f rest
        (c :: rec2.1, rec2.2)

/-- Embedding of `re.sub(r'data-section="[^"]+"', 'data-section="KEY"', tag)`
(used when the normalized key differs from the raw one). -/
def rewriteDS (fuel : Nat) (l nk : List Char) : List Char :=
  match fuel with
  | 0 => l
  | f + 1 =>
    match l with
    | [] => []
    | c :: rest =>
      if l.take 14 = dsLit then
        let afterLit := l.drop 14
        let v := afterLit.takeWhile (· ≠ '"')
        if v.isEmpty ∨ v.length = afterLit.length then c :: rewriteDS f rest nk
        else dsLit ++ nk ++ '"' :: rewriteDS f (afterLit.drop (v.length + 1)) nk
      else c :: rewriteDS f rest nk

/-- Embedding of `re.sub(r"\s*</div>\s*$", "", content)`. -/
def stripTrailingDivClose (content : List Char) : List Char :=
  let t := content.reverse.dropWhile Char.isWhitespace
  if t.take 6 = "</div>".toList.reverse then
    ((t.drop 6).dropWhile Char.isWhitespace).reverse
  else content

/-- The wrapper each extracted section is rewrapped in. -/
def sectionWrapOpen : String := "<div class=\"NB-briefing-summary\">"

/-- Embedding of `extract_section_summaries`: split on section headers,
normalize and validate each key (dropping blocks with invalid keys), rewrite
the tag when normalization changed the key, strip a trailing outer `</div>`,
rewrap, and collect into a dict. -/
def extract_section_summaries (summary_html : String) :
    List (String × String) :=
  if summary_html = "" then []
  else
    let triples := (splitH3 summary_html.length summary_html.toList).2
    triples.foldl
      (fun sections t =>
        match normalize_section_key (String.mk t.2.1) with
        | none => sections
        | some section_key =>
          let h3_tag :=
            if section_key.toList ≠ t.2.1 then
              rewriteDS t.1.length t.1 section_key.toList
            else t.1
          let content := stripTrailingDivClose t.2.2
          aset sections section_key
            (sectionWrapOpen ++ String.mk h3_tag ++ String.mk content ++ "</div>"))
      []

/-- The rebuild step of `filter_disabled_sections`: strip the leading wrapper
div (`re.sub(r'^<div class="NB-briefing-summary">', "", s)`) and the trailing
`</div>` from one kept section. -/
def stripSectionWrap (s : String) : String :=
  let inner :=
    if pyStartsWith s sectionWrapOpen then pyDrop s sectionWrapOpen.length else s
  if pyEndsWith inner "</div>" then pyDropRight inner 6 else inner

/-- Embedding of `filter_disabled_sections`.  Keep only sections whose toggle
is truthy, plus `trending_global` always; fall back to the input document
when the input or the section map is falsy, nothing parses, or the filter
would keep nothing. -/
def filter_disabled_sections (summary_html : String)
    (active_sections : List (String × Bool)) : String :=
  if summary_html = "" ∨ active_sections.isEmpty then summary_html
  else
    let sections := extract_section_summaries summary_html
    if sections.isEmpty then summary_html
    else
      let allowedKeys := (active_sections.filter (fun kv => kv.2)).map Prod.fst
      let filtered := sections.filter
        (fun kv => kv.1 ∈ allowedKeys ∨ kv.1 = "trending_global")
      if filtered.isEmpty then summary_html
      else
        sectionWrapOpen ++ String.join (filtered.map (stripSectionWrap ∘ Prod.snd)) ++ "</div>"

/-! ## `apps/statistics/rllm_costs.py` — `RLLMCosts.record` -/

/-- The Redis pipeline commands `record` issues. -/
inductive RedisCmd where
  | incrby (key : String) (amount : ℤ)
  | incr (key : String)
  | expireat (key : String) (ts : Nat)
  | sadd (key : String) (member : String)
deriving DecidableEq, Repr

/-- Python `int()` on a real value: truncation toward zero. -/
def pyInt (q : ℚ) : ℤ := if 0 ≤ q then q.floor else q.ceil

/-- The model-name sanitization `model.replace("-", "_").replace(".", "_")`. -/
def modelSafe (model : String) : String :=
  String.mk (model.toList.map (fun c => if c = '-' ∨ c = '.' then '_' else c))

/-- Embedding of `RLLMCosts.record`: the pipeline command list, in source
order.  `date_key` and `expiry` stand for the formatted current date and the
60-day expiry timestamp; `cost_usd` is embedded as an exact rational (the
float multiplication by `1_000_000` keeps `int()`'s result away from the
truncation boundaries at every dollar amount whose micro-dollar value is not
within double rounding error of an integer). -/
def RLLMCosts_record (provider model feature : String)
    (input_tokens output_tokens : Nat) (cost_usd : ℚ) (user_id : Option Nat)
    (date_key : String) (expiry : Nat) : List RedisCmd :=
  let total_tokens : ℤ := input_tokens + output_tokens
  let cost_micro := pyInt (cost_usd * 1000000)
  let model_safe := modelSafe model
  let block := fun (pre : String) =>
    [RedisCmd.incrby (pre ++ ":tokens") total_tokens,
     RedisCmd.incrby (pre ++ ":cost") cost_micro,
     RedisCmd.incr (pre ++ ":requests"),
     RedisCmd.expireat (pre ++ ":tokens") expiry,
     RedisCmd.expireat (pre ++ ":cost") expiry,
     RedisCmd.expireat (pre ++ ":requests") expiry]
  block ("LLM:" ++ date_key ++ ":" ++ provider ++ ":" ++ feature)
    ++ block ("LLM:" ++ date_key ++ ":model:" ++ model_safe)
    ++ block ("LLM:" ++ date_key ++ ":provider:" ++ provider)
    ++ block ("LLM:" ++ date_key ++ ":feature:" ++ feature)
    ++ block ("LLM:" ++ date_key ++ ":total")
    ++ (match user_id with
        | some uid =>
          if uid ≠ 0 then
            [RedisCmd.sadd ("LLM:" ++ date_key ++ ":users") (toString uid),
             RedisCmd.expireat ("LLM:" ++ date_key ++ ":users") expiry]
          else []
        | none => [])
    ++ [RedisCmd.sadd "LLM:known_models" model_safe]

/-- Whether a Redis key names a cost counter (ends in `:cost`). -/
def endsCost (k : String) : Bool :=
  k.toList.reverse.take 5 = ":cost".toList.reverse

/-- The amounts added to `…:cost` counters by a command list. -/
def costIncrements (cmds : List RedisCmd) : List ℤ :=
  cmds.filterMap
    (fun c =>
      match c with
      | RedisCmd.incrby k v => if endsCost k then some v else none
      | _ => none)

/-! ## Concrete inputs used by the counterexamples and witnesses -/

/-- Two stories with the same long title in different feeds, distinct GUIDs,
the first one earlier. -/
def exS1 : Story := ⟨"1:g1", 1, "Breaking News About Tech Today", some 100⟩
def exS2 : Story := ⟨"2:g2", 2, "Breaking News About Tech Today", some 200⟩
def exSfm : List (String × Nat) := [("1:g1", 1), ("2:g2", 2)]

/-- Four stories: `exA`/`exB` share one exact title, `exC`/`exD` another; the
two titles are fuzzy-similar (Jaccard 5/7), and `exA`/`exC` share a GUID
(branched-feed copies with different titles). -/
def exA : Story := ⟨"1:g1", 1, "alpha bravo charlie delta echo one", some 1⟩
def exB : Story := ⟨"2:g2", 2, "alpha bravo charlie delta echo one", some 2⟩
def exC : Story := ⟨"3:g1", 3, "alpha bravo charlie delta echo two", some 3⟩
def exD : Story := ⟨"4:g3", 4, "alpha bravo charlie delta echo two", some 4⟩

/-- Boundary stories: normalized titles of exactly 10 and 9 characters. -/
def w10Story : Story := ⟨"5:h5", 5, "abcdefghij", some 1⟩
def w9Story : Story := ⟨"6:h6", 6, "abcdefghi", some 1⟩

/-- Tier-B boundary: two different titles with 8 significant words each
sharing 6, so Jaccard is exactly 6/10 = 0.60. -/
def exT1 : Story := ⟨"1:j1", 1, "red orange yellow green blue violet gray pink", some 1⟩
def exT2 : Story := ⟨"2:j2", 2, "red orange yellow green blue violet black brown", some 2⟩

/-- Tier-B below threshold: 8 words each sharing 5, Jaccard 5/11 < 0.60. -/
def exT3 : Story := ⟨"1:j3", 1, "red orange yellow green blue violet gray pink", some 1⟩
def exT4 : Story := ⟨"2:j4", 2, "red orange yellow green blue cyan black brown", some 2⟩

/-- Word-count boundary: titles with exactly 5 and 4 significant words. -/
def exW5 : Story := ⟨"1:k1", 1, "red orange yellow green blue", some 1⟩
def exW4 : Story := ⟨"1:k2", 1, "red orange yellow green", some 1⟩

/-- A summary document with a `long_read` and a `trending_global` section. -/
def exHtml : String :=
  "<div class=\"NB-briefing-summary\"><h3 data-section=\"long_read\">Long</h3><p>body1</p><h3 data-section=\"trending_global\">Trend</h3><p>body2</p></div>"

/-! ## Generic lemmas about the dict/set embeddings -/

theorem foldlInv {α σ : Type} {P : σ → Prop} {f : σ → α → σ}
    (h : ∀ s a, P s → P (f s a)) :
    ∀ (l : List α) (s : σ), P s → P (l.foldl f s) := by
  intro l
  induction l with
  | nil => intro s hs; exact hs
  | cons a rest ih => intro s hs; exact ih (f s a) (h s a hs)

theorem mem_ldedup {α : Type} [DecidableEq α] {a : α} :
    ∀ {l : List α}, a ∈ ldedup l ↔ a ∈ l := by
  intro l
  induction l with
  | nil => simp [ldedup]
  | cons x rest ih =>
    simp only [ldedup, List.mem_cons, List.mem_filter, ih]
    constructor
    · rintro (rfl | ⟨h, _⟩)
      · exact .inl rfl
      · exact .inr h
    · rintro (rfl | h)
      · exact .inl rfl
      · by_cases hax : a = x
        · exact .inl hax
        · exact .inr ⟨h, by simpa using hax⟩

theorem nodup_ldedup {α : Type} [DecidableEq α] :
    ∀ (l : List α), (ldedup l).Nodup := by
  intro l
  induction l with
  | nil => simp [ldedup]
  | cons x rest ih =>
    simp only [ldedup, List.nodup_cons]
    refine ⟨fun hx => ?_, ih.filter _⟩
    have := List.of_mem_filter hx
    simp at this

theorem two_le_distinctCount {α : Type} [DecidableEq α] {a b : α} {l : List α}
    (ha : a ∈ l) (hb : b ∈ l) (hab : a ≠ b) : 2 ≤ distinctCount l := by
  have ha' := mem_ldedup.mpr ha
  have hb' := mem_ldedup.mpr hb
  unfold distinctCount
  match hd : ldedup l with
  | [] => rw [hd] at ha'; simp at ha'
  | [x] =>
    rw [hd] at ha' hb'
    simp at ha' hb'
    exact absurd (ha'.trans hb'.symm) hab
  | x :: y :: rest => simp [hd]

theorem mem_aset {β : Type} {kv : String × β} {k : String} {v : β} :
    ∀ {l : List (String × β)}, kv ∈ aset l k v → kv = (k, v) ∨ kv ∈ l := by
  intro l
  induction l with
  | nil => simp [aset]
  | cons p rest ih =>
    obtain ⟨k', v'⟩ := p
    simp only [aset]
    by_cases hk : k' = k
    · simp only [if_pos hk, List.mem_cons]
      tauto
    · simp only [if_neg hk, List.mem_cons]
      intro h
      rcases h with h | h
      · tauto
      · rcases ih h with h' | h' <;> tauto

theorem alookup_mem {β : Type} {k : String} {v : β} :
    ∀ {l : List (String × β)}, alookup l k = some v → (k, v) ∈ l := by
  intro l
  induction l with
  | nil => simp [alookup]
  | cons p rest ih =>
    obtain ⟨k', v'⟩ := p
    simp only [alookup]
    by_cases hk : k' = k
    · subst hk
      simp only [if_pos rfl]
      intro h
      injection h with h
      subst h
      exact List.mem_cons_self _ _
    · rw [if_neg hk]
      intro h
      exact List.mem_cons_of_mem _ (ih h)

theorem alookup_aset_isSome {β : Type} {k k' : String} {v : β} :
    ∀ {l : List (String × β)}, (alookup l k').isSome →
      (alookup (aset l k v) k').isSome := by
  intro l
  induction l with
  | nil => simp [alookup]
  | cons p rest ih =>
    obtain ⟨k0, v0⟩ := p
    simp only [aset, alookup]
    by_cases hk : k0 = k
    · subst hk
      simp only [if_pos rfl, alookup]
      by_cases hk' : k0 = k'
      · rw [if_pos hk', if_pos hk']
        simp
      · rw [if_neg hk', if_neg hk']
        exact id
    · simp only [if_neg hk, alookup]
      by_cases hk' : k0 = k'
      · rw [if_pos hk', if_pos hk']
        simp
      · rw [if_neg hk', if_neg hk']
        exact ih

theorem alookup_aset_self {β : Type} {k : String} {v : β} :
    ∀ {l : List (String × β)}, alookup (aset l k v) k = some v := by
  intro l
  induction l with
  | nil => simp [aset, alookup]
  | cons p rest ih =>
    obtain ⟨k', v'⟩ := p
    simp only [aset]
    by_cases hk : k' = k
    · subst hk
      simp [alookup]
    · simp only [if_neg hk, alookup, if_neg hk]
      exact ih

theorem alookup_eq_none_iff {β : Type} {k : String} :
    ∀ {l : List (String × β)}, alookup l k = none ↔ k ∉ l.map Prod.fst := by
  intro l
  induction l with
  | nil => simp [alookup]
  | cons p rest ih =>
    obtain ⟨k', v'⟩ := p
    simp only [alookup, List.map_cons, List.mem_cons]
    by_cases hk : k' = k
    · subst hk
      simp
    · rw [if_neg hk]
      simp only [ih]
      constructor
      · intro h hh
        rcases hh with hh | hh
        · exact hk hh.symm
        · exact h hh
      · intro h hh
        exact h (.inr hh)

/-! ## Lemmas about the stable sort -/

theorem mem_insertByKey {key : String → Nat} {x z : String} :
    ∀ {l : List String}, z ∈ insertByKey key x l ↔ z = x ∨ z ∈ l := by
  intro l
  induction l with
  | nil => simp [insertByKey]
  | cons y ys ih =>
    simp only [insertByKey]
    by_cases h : key x < key y
    · simp only [if_pos h, List.mem_cons]
    · simp only [if_neg h, List.mem_cons, ih]
      tauto

theorem pairwise_insertByKey {key : String → Nat} {x : String} :
    ∀ {l : List String}, l.Pairwise (fun a b => key a ≤ key b) →
      (insertByKey key x l).Pairwise (fun a b => key a ≤ key b) := by
  intro l
  induction l with
  | nil => intro _; simp [insertByKey]
  | cons y ys ih =>
    intro h
    rcases List.pairwise_cons.mp h with ⟨hy, hys⟩
    simp only [insertByKey]
    by_cases hlt : key x < key y
    · rw [if_pos hlt]
      refine List.pairwise_cons.mpr ⟨?_, h⟩
      intro z hz
      rcases List.mem_cons.mp hz with rfl | hz
      · exact Nat.le_of_lt hlt
      · exact Nat.le_trans (Nat.le_of_lt hlt) (hy z hz)
    · rw [if_neg hlt]
      refine List.pairwise_cons.mpr ⟨?_, ih hys⟩
      intro z hz
      rcases mem_insertByKey.mp hz with rfl | hz
      · exact Nat.le_of_not_lt hlt
      · exact hy z hz

theorem pairwise_sortByKey (key : String → Nat) (l : List String) :
    (sortByKey key l).Pairwise (fun a b => key a ≤ key b) := by
  unfold sortByKey
  refine foldlInv (P := fun acc => acc.Pairwise (fun a b => key a ≤ key b))
    ?_ l [] (by simp)
  intro s a hs
  exact pairwise_insertByKey hs

theorem length_insertByKey {key : String → Nat} {x : String} :
    ∀ {l : List String}, (insertByKey key x l).length = l.length + 1 := by
  intro l
  induction l with
  | nil => simp [insertByKey]
  | cons y ys ih =>
    simp only [insertByKey]
    by_cases h : key x < key y
    · simp [if_pos h]
    · simp only [if_neg h, List.length_cons, ih]

theorem length_sortByKey (key : String → Nat) :
    ∀ (l : List String) (acc : List String),
      (l.foldl (fun acc x => insertByKey key x acc) acc).length
        = acc.length + l.length := by
  intro l
  induction l with
  | nil => intro acc; simp
  | cons x xs ih =>
    intro acc
    simp only [List.foldl_cons, ih, length_insertByKey, List.length_cons]
    omega

/-! ## Structure of the emitted clusters -/

/-- What every cluster stored by `titleValidClusters` satisfies: it came from
a group of at least two members that passed both GUID/feed checks, its member
list is the date-sorted group truncated to `CLUSTER_MAX_SIZE`, and its id is
the sorted head. -/
def TitleClusterOk (sbh : List (String × Story)) (ofm : List (Nat × Nat))
    (kv : String × List String) : Prop :=
  ∃ members t,
    2 ≤ members.length ∧
    2 ≤ (guidFeedMapT sbh ofm members).length ∧
    2 ≤ distinctCount ((guidFeedMapT sbh ofm members).map Prod.snd) ∧
    sortByKey (memberDateKey sbh) members = kv.1 :: t ∧
    kv.2 = (kv.1 :: t).take CLUSTER_MAX_SIZE

theorem mem_titleValidClusters {sbh : List (String × Story)}
    {ofm : List (Nat × Nat)} {groups : List (String × List String)}
    {kv : String × List String} (hkv : kv ∈ titleValidClusters sbh ofm groups) :
    TitleClusterOk sbh ofm kv := by
  unfold titleValidClusters at hkv
  refine foldlInv
    (P := fun clusters => ∀ kv' ∈ clusters, TitleClusterOk sbh ofm kv')
    ?_ groups [] (by simp) kv hkv
  intro s rg hP kv' hkv'
  by_cases h2 : rg.2.length < 2
  · rw [if_pos h2] at hkv'
    exact hP kv' hkv'
  · rw [if_neg h2] at hkv'
    by_cases hg : (guidFeedMapT sbh ofm rg.2).length < 2
    · rw [if_pos hg] at hkv'
      exact hP kv' hkv'
    · rw [if_neg hg] at hkv'
      by_cases hf : distinctCount ((guidFeedMapT sbh ofm rg.2).map Prod.snd) < 2
      · rw [if_pos hf] at hkv'
        exact hP kv' hkv'
      · rw [if_neg hf] at hkv'
        rcases hs : sortByKey (memberDateKey sbh) rg.2 with _ | ⟨cid, t⟩
        · rw [hs] at hkv'
          exact hP kv' hkv'
        · rw [hs] at hkv'
          rcases mem_aset hkv' with rfl | hmem
          · exact ⟨rg.2, t, Nat.le_of_not_lt h2, Nat.le_of_not_lt hg,
              Nat.le_of_not_lt hf, hs, rfl⟩
          · exact hP kv' hmem

/-- What every cluster stored by `feedValidClusters` satisfies. -/
def FeedClusterOk (sfm : List (String × Nat)) (ofm : List (Nat × Nat))
    (groups : List (String × List String)) (kv : String × List String) : Prop :=
  ∃ members,
    2 ≤ members.length ∧
    2 ≤ (guidFeedMapF sfm ofm members).length ∧
    2 ≤ distinctCount ((guidFeedMapF sfm ofm members).map Prod.snd) ∧
    (kv.1, members) ∈ groups ∧
    kv.2 = members.take CLUSTER_MAX_SIZE

theorem mem_feedValidClusters {sfm : List (String × Nat)}
    {ofm : List (Nat × Nat)} {groups : List (String × List String)}
    {kv : String × List String} (hkv : kv ∈ feedValidClusters sfm ofm groups) :
    FeedClusterOk sfm ofm groups kv := by
  unfold feedValidClusters at hkv
  have main : ∀ (gs : List (String × List String)),
      (∀ rg ∈ gs, rg ∈ groups) →
      ∀ acc, (∀ kv' ∈ acc, FeedClusterOk sfm ofm groups kv') →
      ∀ kv' ∈ gs.foldl
        (fun clusters rg =>
          if rg.2.length < 2 then clusters
          else
            if (guidFeedMapF sfm ofm rg.2).length < 2 then clusters
            else if distinctCount ((guidFeedMapF sfm ofm rg.2).map Prod.snd) < 2 then
              clusters
            else aset clusters rg.1 (rg.2.take CLUSTER_MAX_SIZE)) acc,
        FeedClusterOk sfm ofm groups kv' := by
    intro gs
    induction gs with
    | nil => intro _ acc hacc kv' hkv'; exact hacc kv' hkv'
    | cons rg rest ih =>
      intro hsub acc hacc kv' hkv'
      simp only [List.foldl_cons] at hkv'
      refine ih (fun x hx => hsub x (List.mem_cons_of_mem _ hx)) _ ?_ kv' hkv'
      intro kv'' hkv''
      by_cases h2 : rg.2.length < 2
      · rw [if_pos h2] at hkv''
        exact hacc kv'' hkv''
      · rw [if_neg h2] at hkv''
        by_cases hg : (guidFeedMapF sfm ofm rg.2).length < 2
        · rw [if_pos hg] at hkv''
          exact hacc kv'' hkv''
        · rw [if_neg hg] at hkv''
          by_cases hf : distinctCount ((guidFeedMapF sfm ofm rg.2).map Prod.snd) < 2
          · rw [if_pos hf] at hkv''
            exact hacc kv'' hkv''
          · rw [if_neg hf] at hkv''
            rcases mem_aset hkv'' with rfl | hmem
            · exact ⟨rg.2, Nat.le_of_not_lt h2, Nat.le_of_not_lt hg,
                Nat.le_of_not_lt hf,
                by
                  have := hsub rg (List.mem_cons_self _ _)
                  simpa using this,
                rfl⟩
            · exact hacc kv'' hmem
  exact main groups (fun _ hx => hx) [] (by simp) kv hkv

theorem mem_sortByKey {key : String → Nat} {z : String} :
    ∀ (l acc : List String),
      (z ∈ l.foldl (fun acc x => insertByKey key x acc) acc ↔ z ∈ acc ∨ z ∈ l) := by
  intro l
  induction l with
  | nil => intro acc; simp
  | cons x xs ih =>
    intro acc
    simp only [List.foldl_cons, ih, mem_insertByKey, List.mem_cons]
    tauto

/-- Every key of the `guid_to_feed` map built by `find_title_clusters` is the
GUID of some member. -/
theorem guidFeedMapT_origin {sbh : List (String × Story)} {ofm : List (Nat × Nat)} :
    ∀ (members : List String) (acc : List (String × Nat)),
      ∀ gv ∈ members.foldl
        (fun m h =>
          let guid := story_guid_hash h
          if (alookup m guid).isSome then m
          else
            m ++ [(guid,
              resolve_feed_id ((alookup sbh h).getD junkStory).story_feed_id ofm)])
        acc,
      gv ∈ acc ∨ ∃ h ∈ members, gv.1 = story_guid_hash h := by
  intro members
  induction members with
  | nil => intro acc gv hgv; exact .inl hgv
  | cons h rest ih =>
    intro acc gv hgv
    simp only [List.foldl_cons] at hgv
    rcases ih _ gv hgv with hacc | ⟨h', hh', hg⟩
    · by_cases hs : (alookup acc (story_guid_hash h)).isSome
      · rw [if_pos hs] at hacc
        exact .inl hacc
      · rw [if_neg hs] at hacc
        rcases List.mem_append.mp hacc with hacc | hacc
        · exact .inl hacc
        · simp only [List.mem_singleton] at hacc
          exact .inr ⟨h, List.mem_cons_self _ _, by rw [hacc]⟩
    · exact .inr ⟨h', List.mem_cons_of_mem _ hh', hg⟩

/-- Same for the feed-map variant shared by merge/semantic clustering. -/
theorem guidFeedMapF_origin {sfm : List (String × Nat)} {ofm : List (Nat × Nat)} :
    ∀ (members : List String) (acc : List (String × Nat)),
      ∀ gv ∈ members.foldl
        (fun m h =>
          let guid := story_guid_hash h
          if (alookup m guid).isSome then m
          else
            match alookup sfm h with
            | some f => if f ≠ 0 then m ++ [(guid, resolve_feed_id f ofm)] else m
            | none => m)
        acc,
      gv ∈ acc ∨ ∃ h ∈ members, gv.1 = story_guid_hash h := by
  intro members
  induction members with
  | nil => intro acc gv hgv; exact .inl hgv
  | cons h rest ih =>
    intro acc gv hgv
    simp only [List.foldl_cons] at hgv
    rcases ih _ gv hgv with hacc | ⟨h', hh', hg⟩
    · by_cases hs : (alookup acc (story_guid_hash h)).isSome
      · rw [if_pos hs] at hacc
        exact .inl hacc
      · rw [if_neg hs] at hacc
        rcases hf : alookup sfm h with _ | f
        · rw [hf] at hacc
          exact .inl hacc
        · rw [hf] at hacc
          by_cases hf0 : f = 0
          · subst hf0
            exact .inl hacc
          · have hacc' : gv ∈ acc ++ [(story_guid_hash h, resolve_feed_id f ofm)] := by
              simpa [hf0] using hacc
            rcases List.mem_append.mp hacc' with hin | hin
            · exact .inl hin
            · simp only [List.mem_singleton] at hin
              exact .inr ⟨h, List.mem_cons_self _ _, by rw [hin]⟩
    · exact .inr ⟨h', List.mem_cons_of_mem _ hh', hg⟩

/-- Keys of the guid-to-feed maps are distinct (a binding is only added when
its key is absent; both variants append one binding or nothing). -/
theorem gfm_keys_nodup
    {step : List (String × Nat) → String → List (String × Nat)}
    (hstep : ∀ m h, step m h = m ∨
      ((alookup m (story_guid_hash h)).isSome = false ∧
        ∃ v, step m h = m ++ [(story_guid_hash h, v)])) :
    ∀ (members : List String) (acc : List (String × Nat)),
      (acc.map Prod.fst).Nodup →
      ((members.foldl step acc).map Prod.fst).Nodup := by
  intro members
  induction members with
  | nil => intro acc hacc; exact hacc
  | cons h rest ih =>
    intro acc hacc
    simp only [List.foldl_cons]
    refine ih _ ?_
    rcases hstep acc h with heq | ⟨hnone, v, heq⟩
    · rw [heq]; exact hacc
    · rw [heq]
      have hnotmem : story_guid_hash h ∉ acc.map Prod.fst := by
        intro hmem
        have : alookup acc (story_guid_hash h) = none := by
          cases halo : alookup acc (story_guid_hash h) with
          | none => rfl
          | some v' => rw [halo] at hnone; simp at hnone
        exact (alookup_eq_none_iff.mp this) hmem
      simp only [List.map_append, List.map_cons, List.map_nil]
      rw [List.nodup_append]
      exact ⟨hacc, List.nodup_singleton _, by simpa using hnotmem⟩

/-- A guid-to-feed map with ≥ 2 bindings forces ≥ 2 distinct member GUIDs. -/
theorem two_distinct_guids_of_gfm {members : List String}
    {g2f : List (String × Nat)}
    (hlen : 2 ≤ g2f.length)
    (hnodup : (g2f.map Prod.fst).Nodup)
    (horigin : ∀ gv ∈ g2f, ∃ h ∈ members, gv.1 = story_guid_hash h) :
    2 ≤ distinctCount (members.map story_guid_hash) := by
  match hg : g2f with
  | [] => simp [hg] at hlen
  | [x] => simp [hg] at hlen
  | x :: y :: rest =>
    have hx := horigin x (List.mem_cons_self _ _)
    have hy := horigin y (List.mem_cons_of_mem _ (List.mem_cons_self _ _))
    rcases hx with ⟨hx1, hx2, hx3⟩
    rcases hy with ⟨hy1, hy2, hy3⟩
    have hne : x.1 ≠ y.1 := by
      simp only [List.map_cons, List.nodup_cons, List.mem_cons] at hnodup
      intro hcon
      exact hnodup.1 (.inl hcon)
    refine two_le_distinctCount (a := story_guid_hash hx1) (b := story_guid_hash hy1)
      (List.mem_map_of_mem _ hx2) (List.mem_map_of_mem _ hy2) ?_
    rw [← hx3, ← hy3]
    exact hne

theorem take_max_cons (c : String) (t : List String) :
    (c :: t).take CLUSTER_MAX_SIZE = c :: t.take 9 := rfl

/-! ## Claim C1 -/

/-- Claim C1 (amended).  Every cluster `find_title_clusters` emits comes from
a union-find component of ≥ 2 members whose first-occurrence guid-to-feed map
has ≥ 2 keys and ≥ 2 distinct resolved feeds; its stored member list is the
component sorted by `story_date` ascending and truncated to 10 entries, whose
head — an earliest member — is the cluster id, itself one of the members.
For `merge_clusters` with a truthy `story_feed_map`, every stored cluster is
a component of ≥ 2 members truncated to 10 whose guid-to-feed map (over the
Mongo-completed feed map) has ≥ 2 keys and ≥ 2 distinct resolved feeds — but
its members are not re-sorted by date and its cluster id is the union-find
root rather than the earliest member (see the counterexample). -/
theorem C1_cluster_emission :
    (∀ (stories : List Story) (ofm : List (Nat × Nat))
      (kv : String × List String), kv ∈ find_title_clusters stories ofm →
        kv.2.length ≤ CLUSTER_MAX_SIZE ∧
        kv.2.head? = some kv.1 ∧
        kv.1 ∈ kv.2 ∧
        kv.2.Pairwise (fun a b =>
          memberDateKey (buildStoryByHash stories) a
            ≤ memberDateKey (buildStoryByHash stories) b) ∧
        (∀ m ∈ kv.2,
          memberDateKey (buildStoryByHash stories) kv.1
            ≤ memberDateKey (buildStoryByHash stories) m) ∧
        (∃ members t,
          2 ≤ members.length ∧
          2 ≤ (guidFeedMapT (buildStoryByHash stories) ofm members).length ∧
          2 ≤ distinctCount
            ((guidFeedMapT (buildStoryByHash stories) ofm members).map Prod.snd) ∧
          sortByKey (memberDateKey (buildStoryByHash stories)) members = kv.1 :: t ∧
          kv.2 = (kv.1 :: t).take CLUSTER_MAX_SIZE ∧
          (∀ m ∈ kv.2, m ∈ members)))
    ∧ (∀ (tc sc : List (String × List String)) (sfm mongo : List (String × Nat))
        (ofm : List (Nat × Nat)) (kv : String × List String), sfm ≠ [] →
        kv ∈ merge_clusters tc sc sfm mongo ofm →
          kv.2.length ≤ CLUSTER_MAX_SIZE ∧
          (∃ members,
            2 ≤ members.length ∧
            2 ≤ (guidFeedMapF (mergeFeedMap tc sc sfm mongo) ofm members).length ∧
            2 ≤ distinctCount
              ((guidFeedMapF (mergeFeedMap tc sc sfm mongo) ofm members).map Prod.snd) ∧
            kv.2 = members.take CLUSTER_MAX_SIZE)) := by
  constructor
  · intro stories ofm kv hkv
    have hok := mem_titleValidClusters (show kv ∈ titleValidClusters
      (buildStoryByHash stories) ofm
      (collectGroups (tierBParent
        (buildWordIndex (tierAParent stories ofm) stories) ofm
        (tierAParent stories ofm))) from hkv)
    obtain ⟨members, t, h2, hg, hf, hs, hms⟩ := hok
    have htake : kv.2 = kv.1 :: t.take 9 := by rw [hms, take_max_cons]
    have hsorted : (kv.1 :: t).Pairwise (fun a b =>
        memberDateKey (buildStoryByHash stories) a
          ≤ memberDateKey (buildStoryByHash stories) b) := by
      have := pairwise_sortByKey (memberDateKey (buildStoryByHash stories)) members
      rwa [hs] at this
    have hsub2 : ∀ m ∈ kv.2, m ∈ kv.1 :: t := by
      intro m hm
      rw [hms] at hm
      exact List.take_subset _ _ hm
    refine ⟨?_, ?_, ?_, ?_, ?_, members, t, h2, hg, hf, hs, hms, ?_⟩
    · rw [hms]
      exact List.length_take_le _ _
    · rw [htake]
      rfl
    · rw [htake]
      exact List.mem_cons_self _ _
    · rw [hms]
      exact hsorted.take
    · intro m hm
      rcases List.mem_cons.mp (hsub2 m hm) with rfl | hmt
      · exact Nat.le_refl _
      · exact (List.pairwise_cons.mp hsorted).1 m hmt
    · intro m hm
      have hmem : m ∈ sortByKey (memberDateKey (buildStoryByHash stories)) members := by
        rw [hs]
        exact hsub2 m hm
      have := (@mem_sortByKey (memberDateKey (buildStoryByHash stories)) m
        members []).mp hmem
      simpa using this
  · intro tc sc sfm mongo ofm kv hsfm hkv
    unfold merge_clusters at hkv
    by_cases hempty : (mergeAllHashes tc sc).isEmpty
    · simp only [if_pos hempty] at hkv
      simp at hkv
    · simp only [if_neg hempty] at hkv
      have hsfm' : ¬ sfm.isEmpty := by
        cases sfm with
        | nil => exact absurd rfl hsfm
        | cons a l => simp
      rw [if_neg hsfm'] at hkv
      have hok := mem_feedValidClusters hkv
      obtain ⟨members, h2, hg, hf, _, hms⟩ := hok
      exact ⟨by rw [hms]; exact List.length_take_le _ _, members, h2, hg, hf, hms⟩

/-- Claim C1 counterexample: for the two-story pipeline the merged cluster's
id is `2:g2` — the union-find root — although the earliest member (by
`story_date`) is `1:g1`; so the merged `cluster_id` is not the story hash of
the earliest member as the claim states. -/
theorem C1_counterexample_merge_id_not_earliest :
    merge_clusters (find_title_clusters [exS1, exS2] []) [] exSfm [] []
      = [("2:g2", ["1:g1", "2:g2"])]
    ∧ memberDateKey (buildStoryByHash [exS1, exS2]) "1:g1"
        < memberDateKey (buildStoryByHash [exS1, exS2]) "2:g2"
    ∧ ("2:g2" : String) ≠ "1:g1" := by
  refine ⟨by rfl, by decide, by decide⟩

/-- Claim C1 witness: the title-tier part of the theorem applied to the
concrete two-story input. -/
theorem C1_witness_concrete :
    (("1:g1", ["1:g1", "2:g2"]) : String × List String).2.head? = some "1:g1"
    ∧ (("1:g1", ["1:g1", "2:g2"]) : String × List String).2.length
        ≤ CLUSTER_MAX_SIZE := by
  have heq : find_title_clusters [exS1, exS2] [] = [("1:g1", ["1:g1", "2:g2"])] := by
    rfl
  have h := C1_cluster_emission.1 [exS1, exS2] [] ("1:g1", ["1:g1", "2:g2"])
    (by rw [heq]; exact List.mem_singleton_self _)
  exact ⟨h.2.1, h.1⟩

/-! ## Claim C2 -/

theorem guidFeedMapT_step_shape (sbh : List (String × Story))
    (ofm : List (Nat × Nat)) :
    ∀ (m : List (String × Nat)) (h : String),
      (let guid := story_guid_hash h
        if (alookup m guid).isSome then m
        else
          m ++ [(guid,
            resolve_feed_id ((alookup sbh h).getD junkStory).story_feed_id ofm)]) = m
      ∨ ((alookup m (story_guid_hash h)).isSome = false ∧
          ∃ v, (let guid := story_guid_hash h
            if (alookup m guid).isSome then m
            else
              m ++ [(guid,
                resolve_feed_id ((alookup sbh h).getD junkStory).story_feed_id ofm)])
            = m ++ [(story_guid_hash h, v)]) := by
  intro m h
  by_cases hs : (alookup m (story_guid_hash h)).isSome
  · exact .inl (by simp [hs])
  · refine .inr ⟨by simpa using hs,
      resolve_feed_id ((alookup sbh h).getD junkStory).story_feed_id ofm, ?_⟩
    simp [hs]

theorem guidFeedMapF_step_shape (sfm : List (String × Nat))
    (ofm : List (Nat × Nat)) :
    ∀ (m : List (String × Nat)) (h : String),
      (let guid := story_guid_hash h
        if (alookup m guid).isSome then m
        else
          match alookup sfm h with
          | some f => if f ≠ 0 then m ++ [(guid, resolve_feed_id f ofm)] else m
          | none => m) = m
      ∨ ((alookup m (story_guid_hash h)).isSome = false ∧
          ∃ v, (let guid := story_guid_hash h
            if (alookup m guid).isSome then m
            else
              match alookup sfm h with
              | some f => if f ≠ 0 then m ++ [(guid, resolve_feed_id f ofm)] else m
              | none => m) = m ++ [(story_guid_hash h, v)]) := by
  intro m h
  by_cases hs : (alookup m (story_guid_hash h)).isSome
  · exact .inl (by simp [hs])
  · rcases hf : alookup sfm h with _ | f
    · exact .inl (by simp [hs, hf])
    · by_cases hf0 : f = 0
      · subst hf0
        exact .inl (by simp [hs, hf])
      · refine .inr ⟨by simpa using hs, resolve_feed_id f ofm, ?_⟩
        simp [hs, hf, hf0]

/-- The guid-to-feed map of `find_title_clusters` forces two distinct member
GUIDs whenever it has two bindings. -/
theorem titleGfm_two_guids {sbh : List (String × Story)} {ofm : List (Nat × Nat)}
    {members : List String}
    (hg : 2 ≤ (guidFeedMapT sbh ofm members).length) :
    2 ≤ distinctCount (members.map story_guid_hash) := by
  refine two_distinct_guids_of_gfm hg ?_ ?_
  · exact gfm_keys_nodup (guidFeedMapT_step_shape sbh ofm) members [] (by simp)
  · intro gv hgv
    rcases guidFeedMapT_origin members [] gv hgv with h | h
    · simp at h
    · exact h

theorem feedGfm_two_guids {sfm : List (String × Nat)} {ofm : List (Nat × Nat)}
    {members : List String}
    (hg : 2 ≤ (guidFeedMapF sfm ofm members).length) :
    2 ≤ distinctCount (members.map story_guid_hash) := by
  refine two_distinct_guids_of_gfm hg ?_ ?_
  · exact gfm_keys_nodup (guidFeedMapF_step_shape sfm ofm) members [] (by simp)
  · intro gv hgv
    rcases guidFeedMapF_origin members [] gv hgv with h | h
    · simp at h
    · exact h

/-- Claim C2 (amended).  A stored membership list may repeat a `guid_hash`
(the source deliberately keeps all members so that every story hash gets an
`sCL:` key); what holds instead is that the union-find component behind every
emitted cluster — of which the stored list is a truncation — spans at least
two distinct `guid_hash` values, for all three of `find_title_clusters`,
`find_semantic_clusters` and `merge_clusters` (with a truthy feed map). -/
theorem C2_membership_guids :
    (∀ (stories : List Story) (ofm : List (Nat × Nat)) (kv : String × List String),
      kv ∈ find_title_clusters stories ofm →
        ∃ members : List String, (∀ m ∈ kv.2, m ∈ members) ∧
          2 ≤ distinctCount (members.map story_guid_hash))
    ∧ (∀ (stories : List Story) (feed_ids : List Nat) (esUp : Bool)
        (esHits : String → List (String × Option Nat)) (ofm : List (Nat × Nat))
        (kv : String × List String),
        kv ∈ find_semantic_clusters stories feed_ids esUp esHits ofm →
        ∃ members : List String, (∀ m ∈ kv.2, m ∈ members) ∧
          2 ≤ distinctCount (members.map story_guid_hash))
    ∧ (∀ (tc sc : List (String × List String)) (sfm mongo : List (String × Nat))
        (ofm : List (Nat × Nat)) (kv : String × List String), sfm ≠ [] →
        kv ∈ merge_clusters tc sc sfm mongo ofm →
        ∃ members : List String, (∀ m ∈ kv.2, m ∈ members) ∧
          2 ≤ distinctCount (members.map story_guid_hash)) := by
  refine ⟨?_, ?_, ?_⟩
  · intro stories ofm kv hkv
    have hok := mem_titleValidClusters (show kv ∈ titleValidClusters
      (buildStoryByHash stories) ofm
      (collectGroups (tierBParent
        (buildWordIndex (tierAParent stories ofm) stories) ofm
        (tierAParent stories ofm))) from hkv)
    obtain ⟨members, t, _, hg, _, hs, hms⟩ := hok
    refine ⟨members, ?_, titleGfm_two_guids hg⟩
    intro m hm
    rw [hms] at hm
    have hmem : m ∈ sortByKey (memberDateKey (buildStoryByHash stories)) members := by
      rw [hs]
      exact List.take_subset _ _ hm
    have := (@mem_sortByKey (memberDateKey (buildStoryByHash stories)) m
      members []).mp hmem
    simpa using this
  · intro stories feed_ids esUp esHits ofm kv hkv
    unfold find_semantic_clusters at hkv
    by_cases h0 : stories.isEmpty ∨ feed_ids.isEmpty
    · rw [if_pos h0] at hkv
      simp at hkv
    · rw [if_neg h0] at hkv
      by_cases hes : esUp
      · rw [if_neg (by simpa using hes)] at hkv
        have hok := mem_feedValidClusters hkv
        obtain ⟨members, _, hg, _, _, hms⟩ := hok
        refine ⟨members, ?_, feedGfm_two_guids hg⟩
        intro m hm
        rw [hms] at hm
        exact List.take_subset _ _ hm
      · rw [if_pos (by simpa using hes)] at hkv
        simp at hkv
  · intro tc sc sfm mongo ofm kv hsfm hkv
    unfold merge_clusters at hkv
    by_cases hempty : (mergeAllHashes tc sc).isEmpty
    · rw [if_pos hempty] at hkv
      simp at hkv
    · rw [if_neg hempty] at hkv
      have hsfm' : ¬ sfm.isEmpty := by
        cases sfm with
        | nil => exact absurd rfl hsfm
        | cons a l => simp
      rw [if_neg hsfm'] at hkv
      have hok := mem_feedValidClusters hkv
      obtain ⟨members, _, hg, _, _, hms⟩ := hok
      refine ⟨members, ?_, feedGfm_two_guids hg⟩
      intro m hm
      rw [hms] at hm
      exact List.take_subset _ _ hm

/-! ## Claim C3 -/

theorem toLower_isUpper_false (c : Char) : (Char.toLower c).isUpper = false := by
  unfold Char.toLower
  by_cases h : c.toNat ≥ 65 ∧ c.toNat ≤ 90
  · rw [if_pos h]
    have hvalid : Nat.isValidChar (c.toNat + 32) := Or.inl (by omega)
    have heq : Char.ofNat (c.toNat + 32) = Char.ofNatAux (c.toNat + 32) hvalid := by
      unfold Char.ofNat
      rw [dif_pos hvalid]
    rw [heq]
    simp only [Char.isUpper, Bool.and_eq_false_iff]
    right
    rw [decide_eq_false_iff_not]
    intro hle
    have hle' : (Char.ofNatAux (c.toNat + 32) hvalid).val.toNat ≤ (90 : UInt32).toNat := hle
    have hm : (Char.ofNatAux (c.toNat + 32) hvalid).val.toNat = c.toNat + 32 := rfl
    have h90 : (90 : UInt32).toNat = 90 := rfl
    rw [hm, h90] at hle'
    omega
  · rw [if_neg h]
    simp only [Char.isUpper, Bool.and_eq_false_iff]
    by_cases h65 : (65 : UInt32) ≤ c.val
    · right
      rw [decide_eq_false_iff_not]
      intro hle
      have h65' : (65 : UInt32).toNat ≤ c.val.toNat := h65
      have hle' : c.val.toNat ≤ (90 : UInt32).toNat := hle
      have h65r : (65 : UInt32).toNat = 65 := rfl
      have h90 : (90 : UInt32).toNat = 90 := rfl
      rw [h65r] at h65'
      rw [h90] at hle'
      exact h ⟨h65', hle'⟩
    · left
      rw [decide_eq_false_iff_not]
      exact h65

theorem mem_collapseWS :
    ∀ (l : List Char), ∀ c ∈ collapseWS l,
      (c ∈ l ∧ c.isWhitespace = false) ∨ c = ' ' := by
  intro l
  induction l with
  | nil => simp [collapseWS]
  | cons c1 rest ih =>
    cases rest with
    | nil =>
      intro c hc
      by_cases hws : c1.isWhitespace
      · simp [collapseWS, hws] at hc
        exact .inr hc
      · simp [collapseWS, hws] at hc
        subst hc
        exact .inl ⟨List.mem_cons_self _ _, by simpa using hws⟩
    | cons c2 rest2 =>
      intro c hc
      by_cases hww : c1.isWhitespace && c2.isWhitespace
      · simp only [collapseWS, if_pos hww] at hc
        rcases ih c hc with ⟨hmem, hn⟩ | hsp
        · exact .inl ⟨List.mem_cons_of_mem _ hmem, hn⟩
        · exact .inr hsp
      · simp only [collapseWS, if_neg hww] at hc
        rcases List.mem_cons.mp hc with rfl | htl
        · by_cases hws : c1.isWhitespace
          · rw [if_pos hws]
            exact .inr rfl
          · rw [if_neg hws]
            exact .inl ⟨List.mem_cons_self _ _, by simpa using hws⟩
        · rcases ih c htl with ⟨hmem, hn⟩ | hsp
          · exact .inl ⟨List.mem_cons_of_mem _ hmem, hn⟩
          · exact .inr hsp

theorem collapseWS_head_not_ws (c2 : Char) (rest : List Char)
    (h : c2.isWhitespace = false) : ∃ t, collapseWS (c2 :: rest) = c2 :: t := by
  cases rest with
  | nil => exact ⟨[], by simp [collapseWS, h]⟩
  | cons c3 r3 =>
    refine ⟨collapseWS (c3 :: r3), ?_⟩
    simp [collapseWS, h]

theorem collapseWS_chain :
    ∀ (l : List Char), (collapseWS l).Chain'
      (fun a b => ¬(a.isWhitespace = true ∧ b.isWhitespace = true)) := by
  intro l
  induction l with
  | nil => simp [collapseWS]
  | cons c1 rest ih =>
    cases rest with
    | nil =>
      by_cases hws : c1.isWhitespace <;> simp [collapseWS, hws]
    | cons c2 rest2 =>
      by_cases hww : c1.isWhitespace && c2.isWhitespace
      · simpa only [collapseWS, if_pos hww] using ih
      · simp only [collapseWS, if_neg hww]
        refine List.chain'_cons'.mpr ⟨?_, ih⟩
        intro y hy
        by_cases hws : c1.isWhitespace
        · have hc2 : c2.isWhitespace = false := by
            rcases Bool.and_eq_false_iff.mp (by simpa using hww) with h | h
            · exact absurd h (by simpa using hws)
            · exact h
          obtain ⟨t, ht⟩ := collapseWS_head_not_ws c2 rest2 hc2
          rw [ht] at hy
          simp only [List.head?_cons, Option.mem_def, Option.some.injEq] at hy
          subst hy
          simp only [if_pos hws]
          intro hcon
          rw [hc2] at hcon
          exact Bool.false_ne_true hcon.2
        · simp only [if_neg hws]
          intro hcon
          exact hws (by rw [hcon.1])

theorem mem_pyStrip {c : Char} {l : List Char} (h : c ∈ pyStrip l) : c ∈ l := by
  unfold pyStrip at h
  rw [List.mem_reverse] at h
  have h1 := (List.dropWhile_sublist _).mem h
  rw [List.mem_reverse] at h1
  exact (List.dropWhile_sublist _).mem h1

/-- Values stored in `asetdefApp l k x` are `x` or values already in `l`. -/
theorem asetdefApp_values {β : Type} {k : String} {x y : β} :
    ∀ {l : List (String × List β)}, ∀ e ∈ asetdefApp l k x, y ∈ e.2 →
      y = x ∨ ∃ e' ∈ l, y ∈ e'.2 := by
  intro l
  induction l with
  | nil =>
    intro e he hy
    simp only [asetdefApp, List.mem_singleton] at he
    subst he
    simp only [List.mem_singleton] at hy
    exact .inl hy
  | cons p rest ih =>
    obtain ⟨k', v'⟩ := p
    intro e he hy
    simp only [asetdefApp] at he
    by_cases hk : k' = k
    · rw [if_pos hk] at he
      rcases List.mem_cons.mp he with rfl | he
      · simp only at hy
        rcases List.mem_append.mp hy with hy | hy
        · exact .inr ⟨(k', v'), List.mem_cons_self _ _, hy⟩
        · simp only [List.mem_singleton] at hy
          exact .inl hy
      · exact .inr ⟨e, List.mem_cons_of_mem _ he, hy⟩
    · rw [if_neg hk] at he
      rcases List.mem_cons.mp he with rfl | he
      · exact .inr ⟨(k', v'), List.mem_cons_self _ _, hy⟩
      · rcases ih e he hy with h | ⟨e', he', hy'⟩
        · exact .inl h
        · exact .inr ⟨e', List.mem_cons_of_mem _ he', hy'⟩

/-- `asetdefApp` stores `x` somewhere. -/
theorem asetdefApp_self {β : Type} {k : String} {x : β} :
    ∀ {l : List (String × List β)}, ∃ e ∈ asetdefApp l k x, x ∈ e.2 := by
  intro l
  induction l with
  | nil => exact ⟨(k, [x]), List.mem_singleton_self _, List.mem_singleton_self _⟩
  | cons p rest ih =>
    obtain ⟨k', v'⟩ := p
    simp only [asetdefApp]
    by_cases hk : k' = k
    · rw [if_pos hk]
      exact ⟨(k', v' ++ [x]), List.mem_cons_self _ _, by simp⟩
    · rw [if_neg hk]
      obtain ⟨e, he, hx⟩ := ih
      exact ⟨e, List.mem_cons_of_mem _ he, hx⟩

/-- `asetdefApp` keeps every stored value. -/
theorem asetdefApp_mono {β : Type} {k : String} {x y : β} :
    ∀ {l : List (String × List β)}, (∃ e ∈ l, y ∈ e.2) →
      ∃ e ∈ asetdefApp l k x, y ∈ e.2 := by
  intro l
  induction l with
  | nil => simp
  | cons p rest ih =>
    obtain ⟨k', v'⟩ := p
    intro ⟨e, he, hy⟩
    simp only [asetdefApp]
    by_cases hk : k' = k
    · rw [if_pos hk]
      rcases List.mem_cons.mp he with rfl | he
      · exact ⟨(k', v' ++ [x]), List.mem_cons_self _ _, by
          simp only
          exact List.mem_append.mpr (.inl hy)⟩
      · exact ⟨e, List.mem_cons_of_mem _ he, hy⟩
    · rw [if_neg hk]
      rcases List.mem_cons.mp he with rfl | he
      · exact ⟨(k', v'), List.mem_cons_self _ _, hy⟩
      · obtain ⟨e', he', hy'⟩ := ih ⟨e, he, hy⟩
        exact ⟨e', List.mem_cons_of_mem _ he', hy'⟩

/-- The tier-A participation predicate of the source:
`norm and len(norm) >= TITLE_MIN_LENGTH`. -/
def tierATitleValid (s : Story) : Prop :=
  normalize_title s.story_title ≠ ""
    ∧ TITLE_MIN_LENGTH ≤ (normalize_title s.story_title).length

instance (s : Story) : Decidable (tierATitleValid s) := by
  unfold tierATitleValid
  infer_instance

/-- Soundness: every story stored in a title group passed the filter. -/
theorem buildTitleGroups_sound {stories : List Story} :
    ∀ e ∈ buildTitleGroups stories, ∀ s ∈ e.2, tierATitleValid s := by
  unfold buildTitleGroups
  refine foldlInv
    (P := fun (groups : List (String × List Story)) =>
      ∀ e ∈ groups, ∀ s ∈ e.2, tierATitleValid s)
    ?_ stories [] (by simp)
  intro gs st hP e he s hs
  by_cases hv : normalize_title st.story_title = ""
      ∨ (normalize_title st.story_title).length < TITLE_MIN_LENGTH
  · rw [if_pos hv] at he
    exact hP e he s hs
  · rw [if_neg hv] at he
    rcases asetdefApp_values e he hs with rfl | ⟨e', he', hs'⟩
    · push_neg at hv
      exact ⟨hv.1, Nat.le_of_not_lt (by omega)⟩
    · exact hP e' he' s hs'

/-- Completeness: every valid story of the input list is stored. -/
theorem buildTitleGroups_complete {stories : List Story} {s : Story}
    (hmem : s ∈ stories) (hval : tierATitleValid s) :
    ∃ e ∈ buildTitleGroups stories, s ∈ e.2 := by
  unfold buildTitleGroups
  have main : ∀ (rest : List Story) (acc : List (String × List Story)),
      ((∃ e ∈ acc, s ∈ e.2) ∨ s ∈ rest) →
      ∃ e ∈ rest.foldl
        (fun groups s' =>
          let norm := normalize_title s'.story_title
          if norm = "" ∨ norm.length < TITLE_MIN_LENGTH then groups
          else asetdefApp groups norm s') acc, s ∈ e.2 := by
    intro rest
    induction rest with
    | nil =>
      intro acc h
      rcases h with h | h
      · exact h
      · simp at h
    | cons st rest2 ih =>
      intro acc h
      simp only [List.foldl_cons]
      rcases h with h | h
      · refine ih _ (.inl ?_)
        by_cases hv : normalize_title st.story_title = ""
            ∨ (normalize_title st.story_title).length < TITLE_MIN_LENGTH
        · rw [if_pos hv]
          exact h
        · rw [if_neg hv]
          exact asetdefApp_mono h
      · rcases List.mem_cons.mp h with rfl | h
        · refine ih _ (.inl ?_)
          have hv : ¬(normalize_title s.story_title = ""
              ∨ (normalize_title s.story_title).length < TITLE_MIN_LENGTH) := by
            push_neg
            exact ⟨hval.1, by
              have := hval.2
              omega⟩
          rw [if_neg hv]
          exact asetdefApp_self
        · exact ih _ (.inr h)
  exact main stories [] (.inr hmem)

/-- Claim C3 (confirmed).  `normalize_title` produces only word characters
and single spaces (no two adjacent whitespace characters, so whitespace runs
are collapsed) with no uppercase letter left; and a story is placed in a
tier-A exact-title group exactly when its normalized title is nonempty and at
least 10 characters long.  In particular the concrete boundary stories with
normalized lengths 10 and 9 participate and do not participate
respectively. -/
theorem C3_normalize_and_tierA_threshold :
    (∀ (t : String),
      (∀ c ∈ (normalize_title t).toList, (isWordChar c = true ∨ c = ' ') ∧ c.isUpper = false)
      ∧ (normalize_title t).toList.Chain'
          (fun a b => ¬(a.isWhitespace = true ∧ b.isWhitespace = true)))
    ∧ (∀ (stories : List Story) (s : Story), s ∈ stories →
        ((∃ e ∈ buildTitleGroups stories, s ∈ e.2) ↔
          (normalize_title s.story_title ≠ ""
            ∧ TITLE_MIN_LENGTH ≤ (normalize_title s.story_title).length)))
    ∧ (∃ e ∈ buildTitleGroups [w10Story], w10Story ∈ e.2)
    ∧ ¬(∃ e ∈ buildTitleGroups [w9Story], w9Story ∈ e.2) := by
  refine ⟨?_, ?_, ?_, ?_⟩
  · intro t
    constructor
    · intro c hc
      have hc' : c ∈ collapseWS ((pyStrip (t.toList.map Char.toLower)).filter
          (fun c => isWordChar c || c.isWhitespace)) := hc
      rcases mem_collapseWS _ c hc' with ⟨hmem, hnws⟩ | hsp
      · have hcls := List.mem_filter.mp hmem
        have hword : isWordChar c = true := by
          rcases Bool.or_eq_true_iff.mp hcls.2 with h | h
          · exact h
          · rw [h] at hnws
            exact absurd hnws (by simp)
        refine ⟨.inl hword, ?_⟩
        have hmem2 : c ∈ t.toList.map Char.toLower := mem_pyStrip hcls.1
        obtain ⟨c0, _, rfl⟩ := List.mem_map.mp hmem2
        exact toLower_isUpper_false c0
      · subst hsp
        exact ⟨.inr rfl, rfl⟩
    · exact collapseWS_chain _
  · intro stories s hmem
    constructor
    · intro ⟨e, he, hs⟩
      exact buildTitleGroups_sound e he s hs
    · intro hval
      exact buildTitleGroups_complete hmem hval
  · exact buildTitleGroups_complete (List.mem_singleton_self _) (by decide)
  · intro ⟨e, he, hs⟩
    have := buildTitleGroups_sound e he _ hs
    revert this
    decide

/-! ## Claim C5 -/

/-- Claim C5 (code bug).  On two same-title stories, tier A unions them (they
share a union-find root), yet the tier-B word index still contains both: the
source checks only `h not in parent` (key membership) although its own
comment says the index is built for stories "not yet in a multi-feed
cluster", and the spec says only stories not yet joined to anyone are
considered for fuzzy pairing. -/
theorem C5_tierB_indexes_joined_stories :
    (ufFind (tierAParent [exA, exB] []).length (tierAParent [exA, exB] []) "1:g1").1
      = (ufFind (tierAParent [exA, exB] []).length (tierAParent [exA, exB] []) "2:g2").1
    ∧ (buildWordIndex (tierAParent [exA, exB] []) [exA, exB]).map WIEntry.h
        = ["1:g1", "2:g2"] := by
  exact ⟨by rfl, by rfl⟩

/-- Claim C2 counterexample: on the four-story input the single emitted
cluster stores both `1:g1` and `3:g1`, two entries with the same
`guid_hash` (`g1`). -/
theorem C2_counterexample_guid_duplicate :
    find_title_clusters [exA, exB, exC, exD] []
      = [("1:g1", ["1:g1", "2:g2", "3:g1", "4:g3"])]
    ∧ story_guid_hash "1:g1" = story_guid_hash "3:g1"
    ∧ ("1:g1" : String) ≠ "3:g1" := by
  refine ⟨by rfl, by rfl, by decide⟩

/-! ## Claim C4 -/

theorem pairwise_fst_lt_enumFrom {α : Type} :
    ∀ (l : List α) (n : Nat),
      (List.enumFrom n l).Pairwise (fun p q => p.1 < q.1) := by
  intro l
  induction l with
  | nil => intro n; simp
  | cons x xs ih =>
    intro n
    rw [List.enumFrom_cons]
    refine List.pairwise_cons.mpr ⟨?_, ih (n + 1)⟩
    intro q hq
    have := List.le_fst_of_mem_enumFrom hq
    omega

theorem mem_invertedPostings {wi : List WIEntry} {w : String} {i : Nat} :
    i ∈ invertedPostings wi w ↔
      (i < wi.length ∧ w ∈ (wi.getD i junkWIE).words) := by
  unfold invertedPostings
  rw [List.mem_map]
  constructor
  · intro ⟨p, hp, hfst⟩
    have hmem := List.mem_filter.mp hp
    obtain ⟨pi, pe⟩ := p
    simp only at hfst
    subst hfst
    have hget : wi[pi]? = some pe := List.mk_mem_enum_iff_getElem?.mp hmem.1
    obtain ⟨hlt, hget'⟩ := List.getElem?_eq_some.mp hget
    refine ⟨hlt, ?_⟩
    rw [List.getD_eq_getElem wi junkWIE hlt, hget']
    simpa using hmem.2
  · intro ⟨hlt, hw⟩
    refine ⟨(i, wi.getD i junkWIE), List.mem_filter.mpr ⟨?_, by simpa using hw⟩, rfl⟩
    apply List.mk_mem_enum_iff_getElem?.mpr
    rw [List.getElem?_eq_getElem hlt]
    rw [List.getD_eq_getElem wi junkWIE hlt]

theorem pairwise_lt_invertedPostings (wi : List WIEntry) (w : String) :
    (invertedPostings wi w).Pairwise (· < ·) := by
  unfold invertedPostings
  refine List.Pairwise.map Prod.fst (fun a b h => h) ?_
  refine List.Pairwise.filter _ ?_
  have := pairwise_fst_lt_enumFrom wi 0
  simpa [List.enum] using this

theorem pairsOf_fst_lt {idxs : List Nat} (h : idxs.Pairwise (· < ·)) :
    ∀ p ∈ pairsOf idxs, p.1 < p.2 := by
  induction idxs with
  | nil => simp [pairsOf]
  | cons a rest ih =>
    intro p hp
    rcases List.pairwise_cons.mp h with ⟨ha, hrest⟩
    simp only [pairsOf, List.mem_append, List.mem_map] at hp
    rcases hp with ⟨b, hb, rfl⟩ | hp
    · exact ha b hb
    · exact ih hrest p hp

theorem mem_pairsOf_iff {idxs : List Nat} (h : idxs.Pairwise (· < ·))
    {a b : Nat} : (a, b) ∈ pairsOf idxs ↔ (a ∈ idxs ∧ b ∈ idxs ∧ a < b) := by
  induction idxs with
  | nil => simp [pairsOf]
  | cons x rest ih =>
    rcases List.pairwise_cons.mp h with ⟨hx, hrest⟩
    simp only [pairsOf, List.mem_append, List.mem_map, List.mem_cons]
    constructor
    · rintro (⟨b', hb', heq⟩ | hp)
      · have h1 : x = a := congrArg Prod.fst heq
        have h2 : b' = b := congrArg Prod.snd heq
        rw [← h1, ← h2]
        exact ⟨.inl rfl, .inr hb', hx b' hb'⟩
      · have := (ih hrest).mp hp
        exact ⟨.inr this.1, .inr this.2.1, this.2.2⟩
    · rintro ⟨ha, hb, hab⟩
      rcases ha with rfl | ha
      · rcases hb with rfl | hb
        · omega
        · exact .inl ⟨b, hb, rfl⟩
      · rcases hb with rfl | hb
        · have := hx a ha
          omega
        · exact .inr ((ih hrest).mpr ⟨ha, hb, hab⟩)

theorem mem_tierBCandidatePairs {wi : List WIEntry} {a b : Nat} :
    (a, b) ∈ tierBCandidatePairs wi ↔
      ∃ w, w ∈ invertedWords wi ∧ (invertedPostings wi w).length ≤ 50 ∧
        (a ∈ invertedPostings wi w ∧ b ∈ invertedPostings wi w ∧ a < b) := by
  unfold tierBCandidatePairs
  rw [List.mem_flatten]
  constructor
  · intro ⟨part, hpart, hmem⟩
    rw [List.mem_map] at hpart
    obtain ⟨e, he, rfl⟩ := hpart
    have hfil := List.mem_filter.mp he
    unfold invertedIndex at hfil
    rw [List.mem_map] at hfil
    obtain ⟨⟨w, hw, rfl⟩, hlen⟩ := hfil
    refine ⟨w, hw, by simpa using hlen, ?_⟩
    rw [List.mem_map] at hmem
    obtain ⟨p, hp, hnorm⟩ := hmem
    have hlt := pairsOf_fst_lt (pairwise_lt_invertedPostings wi w) p hp
    have hpn : pairNorm p = p := by
      unfold pairNorm
      rw [if_neg (by omega)]
    rw [hpn] at hnorm
    subst hnorm
    exact (mem_pairsOf_iff (pairwise_lt_invertedPostings wi w)).mp hp
  · intro ⟨w, hw, hlen, hmem⟩
    refine ⟨(pairsOf (invertedPostings wi w)).map pairNorm, ?_, ?_⟩
    · rw [List.mem_map]
      refine ⟨(w, invertedPostings wi w), List.mem_filter.mpr ⟨?_, by simpa using hlen⟩, rfl⟩
      unfold invertedIndex
      rw [List.mem_map]
      exact ⟨w, hw, rfl⟩
    · rw [List.mem_map]
      refine ⟨(a, b), (mem_pairsOf_iff (pairwise_lt_invertedPostings wi w)).mpr hmem, ?_⟩
      unfold pairNorm
      rw [if_neg (by omega)]

theorem invertedWords_of_words {wi : List WIEntry} {w : String} {i : Nat}
    (hlt : i < wi.length) (hw : w ∈ (wi.getD i junkWIE).words) :
    w ∈ invertedWords wi := by
  unfold invertedWords
  rw [mem_ldedup, List.mem_flatten]
  refine ⟨(wi.getD i junkWIE).words, ?_, hw⟩
  rw [List.mem_map]
  refine ⟨wi.getD i junkWIE, ?_, rfl⟩
  rw [List.getD_eq_getElem wi junkWIE hlt]
  exact List.getElem_mem _

/-- The characterization of the tier-B unions: a pair of indexed stories is
unioned exactly when they share a significant word whose posting list has at
most 50 entries and the eligibility checks pass. -/
theorem mem_tierBUnionedPairs {wi : List WIEntry} {ofm : List (Nat × Nat)}
    {a b : Nat} :
    (a, b) ∈ tierBUnionedPairs wi ofm ↔
      (a < b ∧ a < wi.length ∧ b < wi.length ∧
        (∃ w, w ∈ (wi.getD a junkWIE).words ∧ w ∈ (wi.getD b junkWIE).words ∧
          (invertedPostings wi w).length ≤ 50) ∧
        tierBEligible wi ofm (a, b) = true) := by
  unfold tierBUnionedPairs
  rw [List.mem_filter, mem_ldedup, mem_tierBCandidatePairs]
  constructor
  · intro ⟨⟨w, _, hlen, hpa, hpb, hab⟩, helig⟩
    have ha := mem_invertedPostings.mp hpa
    have hb := mem_invertedPostings.mp hpb
    exact ⟨hab, ha.1, hb.1, ⟨w, ha.2, hb.2, hlen⟩, helig⟩
  · intro ⟨hab, ha, hb, ⟨w, hwa, hwb, hlen⟩, helig⟩
    refine ⟨⟨w, invertedWords_of_words ha hwa, hlen,
      mem_invertedPostings.mpr ⟨ha, hwa⟩,
      mem_invertedPostings.mpr ⟨hb, hwb⟩, hab⟩, helig⟩

/-- Claim C4 (confirmed).  (i) Only stories with at least `FUZZY_MIN_WORDS`
(5) significant words — among those with a tier-A-valid title — enter the
tier-B word index, and every such story does; concretely a 5-word title is
indexed and a 4-word title is not.  (ii) A pair of indexed stories is unioned
iff the two stories share an inverted-index word with at most 50 postings and
the eligibility test passes; the eligibility test is exactly: distinct
resolved feeds, distinct GUID hashes, a nonzero union, and Jaccard ≥ 3/5.
Concretely, Jaccard exactly 6/10 unions and 5/11 does not. -/
theorem C4_tierB_index_and_union :
    (∀ (parent : List (String × String)) (stories : List Story),
      (∀ e ∈ buildWordIndex parent stories, FUZZY_MIN_WORDS ≤ e.words.length)
      ∧ (∀ s ∈ stories, (alookup parent s.story_hash).isSome = true →
          FUZZY_MIN_WORDS ≤ (title_significant_words s.story_title).length →
          (⟨s.story_hash, s.story_feed_id, title_significant_words s.story_title⟩ : WIEntry)
            ∈ buildWordIndex parent stories))
    ∧ (∀ (wi : List WIEntry) (ofm : List (Nat × Nat)) (a b : Nat),
        (a, b) ∈ tierBUnionedPairs wi ofm ↔
          (a < b ∧ a < wi.length ∧ b < wi.length ∧
            (∃ w, w ∈ (wi.getD a junkWIE).words ∧ w ∈ (wi.getD b junkWIE).words ∧
              (invertedPostings wi w).length ≤ 50) ∧
            tierBEligible wi ofm (a, b) = true))
    ∧ (∀ (wi : List WIEntry) (ofm : List (Nat × Nat)) (p : Nat × Nat),
        tierBEligible wi ofm p = true ↔
          (resolve_feed_id (wi.getD p.1 junkWIE).fid ofm
              ≠ resolve_feed_id (wi.getD p.2 junkWIE).fid ofm
            ∧ story_guid_hash (wi.getD p.1 junkWIE).h
              ≠ story_guid_hash (wi.getD p.2 junkWIE).h
            ∧ distinctCount ((wi.getD p.1 junkWIE).words ++ (wi.getD p.2 junkWIE).words) ≠ 0
            ∧ FUZZY_SIMILARITY_THRESHOLD
              ≤ jaccardOf (wi.getD p.1 junkWIE).words (wi.getD p.2 junkWIE).words))
    ∧ tierBUnionedPairs
        (buildWordIndex (tierAParent [exT1, exT2] []) [exT1, exT2]) [] = [(0, 1)]
    ∧ tierBUnionedPairs
        (buildWordIndex (tierAParent [exT3, exT4] []) [exT3, exT4]) [] = []
    ∧ jaccardOf (title_significant_words exT1.story_title)
        (title_significant_words exT2.story_title) = mkRat 6 10
    ∧ (buildWordIndex (tierAParent [exW5] []) [exW5]).length = 1
    ∧ buildWordIndex (tierAParent [exW4] []) [exW4] = [] := by
  refine ⟨?_, ?_, ?_, by rfl, by rfl, by rfl, by rfl, by rfl⟩
  · intro parent stories
    constructor
    · intro e he
      unfold buildWordIndex at he
      rw [List.mem_filterMap] at he
      obtain ⟨s, _, hf⟩ := he
      by_cases hp : (alookup parent s.story_hash).isSome
      · rw [if_pos hp] at hf
        by_cases hw : FUZZY_MIN_WORDS ≤ (title_significant_words s.story_title).length
        · rw [if_pos hw] at hf
          injection hf with hf
          subst hf
          exact hw
        · rw [if_neg hw] at hf
          exact absurd hf (by simp)
      · rw [if_neg hp] at hf
        exact absurd hf (by simp)
    · intro s hs hp hw
      unfold buildWordIndex
      rw [List.mem_filterMap]
      refine ⟨s, hs, ?_⟩
      rw [if_pos hp, if_pos hw]
  · intro wi ofm a b
    exact mem_tierBUnionedPairs
  · intro wi ofm p
    unfold tierBEligible
    simp only [Bool.and_eq_true, decide_eq_true_eq, ne_eq]
    tauto

/-! ## Claim C6 -/

theorem pyStartsWith_custom (t : String) :
    pyStartsWith ("custom_" ++ t) "custom_" = true := by
  unfold pyStartsWith
  have hdata : ("custom_" ++ t).toList = "custom_".toList ++ t.toList := rfl
  rw [hdata]
  have hlen : ("custom_".toList).length = 7 := rfl
  have : ("custom_".toList ++ t.toList).take ("custom_".toList).length
      = "custom_".toList := List.take_left _ _
  simp [this]

/-- Every value stored in `category_overrides` is `trending_global`. -/
theorem categoryOverrides_values {act : List (String × Bool)}
    {scored : List ScoredStory} :
    ∀ kv ∈ categoryOverrides act scored, kv.2 = "trending_global" := by
  unfold categoryOverrides
  refine foldlInv
    (P := fun (m : List (String × String)) => ∀ kv ∈ m, kv.2 = "trending_global")
    ?_ scored [] (by simp)
  intro m sc hP kv hkv
  by_cases h1 : pyStartsWith sc.category "custom_" = true ∨ sc.category = "trending_global"
  · rw [if_pos h1] at hkv
    exact hP kv hkv
  · rw [if_neg h1] at hkv
    by_cases h2 : actGet act sc.category = true
    · rw [if_pos h2] at hkv
      exact hP kv hkv
    · rw [if_neg h2] at hkv
      rcases mem_aset hkv with rfl | hkv
      · rfl
      · exact hP kv hkv

/-- A candidate with a disabled, non-custom, non-default category always has
its hash in `category_overrides`. -/
theorem categoryOverrides_covers {act : List (String × Bool)}
    {sc : ScoredStory}
    (hnc : ¬ pyStartsWith sc.category "custom_" = true)
    (hnt : sc.category ≠ "trending_global")
    (hoff : ¬ actGet act sc.category = true) :
    ∀ (scored : List ScoredStory), sc ∈ scored →
      (alookup (categoryOverrides act scored) sc.story_hash).isSome = true := by
  unfold categoryOverrides
  have main : ∀ (rest : List ScoredStory) (acc : List (String × String)),
      ((alookup acc sc.story_hash).isSome = true ∨ sc ∈ rest) →
      (alookup (rest.foldl
        (fun m sc' =>
          let category := sc'.category
          if pyStartsWith category "custom_" ∨ category = "trending_global" then m
          else if actGet act category then m
          else aset m sc'.story_hash "trending_global") acc) sc.story_hash).isSome
        = true := by
    intro rest
    induction rest with
    | nil =>
      intro acc h
      rcases h with h | h
      · exact h
      · simp at h
    | cons sc' rest2 ih =>
      intro acc h
      simp only [List.foldl_cons]
      rcases h with h | h
      · refine ih _ (.inl ?_)
        by_cases h1 : pyStartsWith sc'.category "custom_" = true
            ∨ sc'.category = "trending_global"
        · rw [if_pos h1]
          exact h
        · rw [if_neg h1]
          by_cases h2 : actGet act sc'.category = true
          · rw [if_pos h2]
            exact h
          · rw [if_neg h2]
            exact alookup_aset_isSome h
      · rcases List.mem_cons.mp h with rfl | h
        · refine ih _ (.inl ?_)
          rw [if_neg (by
            intro hcon
            rcases hcon with hcon | hcon
            · exact hnc hcon
            · exact hnt hcon)]
          rw [if_neg hoff]
          rw [alookup_aset_self]
          rfl
        · exact ih _ (.inr h)
  intro scored hmem
  exact main scored [] (.inr hmem)

/-- Claim C6 (confirmed).  With a nonempty section map in which a fixed
(non-custom) section's toggle is off, that section's prompt entry is not among
the section entries rendered into the system prompt, and every candidate
carrying that category gets `trending_global` as the CATEGORY value of its
user-prompt line. -/
theorem C6_disabled_section_remap :
    ∀ (scored : List ScoredStory) (sections : List (String × Bool))
      (customPrompts : List String) (k : String),
      k ∈ SECTION_PROMPTS.map Prod.fst →
      sections ≠ [] →
      actGet sections k = false →
      ((if sections.isEmpty then DEFAULT_SECTIONS else sections) = sections
        ∧ k ∉ (selectedSectionEntries sections customPrompts).map Prod.fst
        ∧ ∀ sc ∈ scored, sc.category = k →
            storyLineCategory (categoryOverrides sections scored) sc
              = "trending_global") := by
  intro scored sections customPrompts k hk hne hoff
  refine ⟨by
    rw [if_neg ?_]
    cases sections with
    | nil => exact absurd rfl hne
    | cons a l => simp, ?_⟩
  have hfixed : ¬ pyStartsWith k "custom_" = true := by
    have : k ∈ ["trending_unread", "long_read", "classifier_match", "follow_up",
        "trending_global", "duplicates", "quick_catchup", "emerging_topics",
        "contrarian_views"] := hk
    fin_cases this <;> decide
  constructor
  · intro hmem
    unfold selectedSectionEntries at hmem
    rw [List.map_append, List.mem_append] at hmem
    rcases hmem with hmem | hmem
    · rw [List.mem_map] at hmem
      obtain ⟨kp, hkp, rfl⟩ := hmem
      have := (List.mem_filter.mp hkp).2
      rw [hoff] at this
      exact Bool.false_ne_true this
    · rw [List.mem_map] at hmem
      obtain ⟨kp, hkp, rfl⟩ := hmem
      rw [List.mem_filterMap] at hkp
      obtain ⟨ip, _, hsome⟩ := hkp
      by_cases hcb : (actGet sections ("custom_" ++ toString (ip.1 + 1))
          && ip.2 ≠ "") = true
      · rw [if_pos hcb] at hsome
        injection hsome with hsome
        have hkey : kp.1 = "custom_" ++ toString (ip.1 + 1) := by
          rw [← hsome]
        apply hfixed
        rw [hkey]
        exact pyStartsWith_custom _
      · rw [if_neg hcb] at hsome
        exact Option.noConfusion hsome
  · intro sc hsc hcat
    unfold storyLineCategory
    by_cases htg : k = "trending_global"
    · cases hlook : alookup (categoryOverrides sections scored) sc.story_hash with
      | none => simp [hcat, htg]
      | some v =>
        have hv : v = "trending_global" :=
          categoryOverrides_values (sc.story_hash, v) (alookup_mem hlook)
        simpa using hv
    · have hcov := @categoryOverrides_covers sections sc
        (by rw [hcat]; exact hfixed) (by rw [hcat]; exact htg)
        (by rw [hcat]; simp [hoff]) scored hsc
      cases hlook : alookup (categoryOverrides sections scored) sc.story_hash with
      | none => rw [hlook] at hcov; simp at hcov
      | some v =>
        have hv : v = "trending_global" :=
          categoryOverrides_values (sc.story_hash, v) (alookup_mem hlook)
        simpa using hv

/-- Claim C6 witness: disabling `long_read` removes its prompt entry and
remaps a `long_read` candidate's line category to `trending_global`. -/
theorem C6_witness_long_read :
    ((if ([("long_read", false), ("trending_global", true)]
          : List (String × Bool)).isEmpty then DEFAULT_SECTIONS
        else [("long_read", false), ("trending_global", true)])
        = [("long_read", false), ("trending_global", true)])
    ∧ ("long_read" ∉ (selectedSectionEntries
        [("long_read", false), ("trending_global", true)] []).map Prod.fst)
    ∧ ∀ sc ∈ [(⟨"h1", "long_read", false, 0, []⟩ : ScoredStory)],
        sc.category = "long_read" →
        storyLineCategory
          (categoryOverrides [("long_read", false), ("trending_global", true)]
            [⟨"h1", "long_read", false, 0, []⟩]) sc = "trending_global" := by
  exact C6_disabled_section_remap
    [⟨"h1", "long_read", false, 0, []⟩]
    [("long_read", false), ("trending_global", true)] [] "long_read"
    (by decide) (by decide) (by decide)

/-! ## Claim C7 -/

/-- Claim C7 (amended).  `filter_disabled_sections` returns the input
unchanged when the input is empty, when the active-section map is empty, when
no section header parses, or when filtering would keep no section; otherwise
it rebuilds the document from exactly the extracted sections whose toggle is
true plus `trending_global` (kept even when its toggle is false or
absent). -/
theorem C7_filter_disabled_sections :
    ∀ (html : String) (act : List (String × Bool)),
      (html = "" → filter_disabled_sections html act = html)
      ∧ (act = [] → filter_disabled_sections html act = html)
      ∧ (extract_section_summaries html = [] →
          filter_disabled_sections html act = html)
      ∧ ((extract_section_summaries html).filter
            (fun kv => kv.1 ∈ (act.filter (fun kv' => kv'.2)).map Prod.fst
              ∨ kv.1 = "trending_global") = [] →
          filter_disabled_sections html act = html)
      ∧ ((extract_section_summaries html).filter
            (fun kv => kv.1 ∈ (act.filter (fun kv' => kv'.2)).map Prod.fst
              ∨ kv.1 = "trending_global") ≠ [] → html ≠ "" → act ≠ [] →
          filter_disabled_sections html act
            = sectionWrapOpen
              ++ String.join (((extract_section_summaries html).filter
                  (fun kv => kv.1 ∈ (act.filter (fun kv' => kv'.2)).map Prod.fst
                    ∨ kv.1 = "trending_global")).map (stripSectionWrap ∘ Prod.snd))
              ++ "</div>") := by
  intro html act
  refine ⟨?_, ?_, ?_, ?_, ?_⟩
  · intro h
    unfold filter_disabled_sections
    rw [if_pos (.inl h)]
  · intro h
    unfold filter_disabled_sections
    rw [if_pos (.inr (by simp [h]))]
  · intro h
    unfold filter_disabled_sections
    by_cases hc : html = "" ∨ act.isEmpty
    · rw [if_pos hc]
    · rw [if_neg hc]
      simp only [h, List.isEmpty_nil, if_true]
  · intro h
    unfold filter_disabled_sections
    by_cases hc : html = "" ∨ act.isEmpty
    · rw [if_pos hc]
    · rw [if_neg hc]
      by_cases hsec : (extract_section_summaries html).isEmpty
      · simp only [hsec, if_true]
      · simp only [hsec, if_false, h, List.isEmpty_nil, if_true]
        simp
  · intro hfil hhtml hact
    unfold filter_disabled_sections
    rw [if_neg (by
      intro hcon
      rcases hcon with hcon | hcon
      · exact hhtml hcon
      · rw [List.isEmpty_iff] at hcon
        exact hact hcon)]
    have hsec : (extract_section_summaries html).isEmpty = false := by
      rw [List.isEmpty_eq_false]
      intro hcon
      apply hfil
      rw [hcon]
      rfl
    simp only [hsec, if_false]
    have hfil' : ((extract_section_summaries html).filter
        (fun kv => kv.1 ∈ (act.filter (fun kv' => kv'.2)).map Prod.fst
          ∨ kv.1 = "trending_global")).isEmpty = false := by
      rw [List.isEmpty_eq_false]
      exact hfil
    simp only [hfil', if_false]
    simp

set_option maxRecDepth 1000000 in
/-- Claim C7 counterexample: with an *empty* active-section map the document
is returned unchanged, so the disabled (not-toggled-true) `long_read` section
is kept even though it is neither toggled true nor `trending_global` — the
claim's "keeps exactly the enabled sections plus trending_global" fails
there, and the claim's three unchanged-cases do not cover it (the section
headers parse, and `trending_global` would survive the filter). -/
theorem C7_counterexample_empty_map :
    filter_disabled_sections exHtml [] = exHtml
    ∧ (extract_section_summaries (filter_disabled_sections exHtml [])).map Prod.fst
        = ["long_read", "trending_global"]
    ∧ actGet [] "long_read" = false
    ∧ ("long_read" : String) ≠ "trending_global" := by
  refine ⟨by rfl, by rfl, by rfl, by decide⟩

/-! ## Claim C8: the amount added to the `…:cost` counters -/

/-- `String.toList` distributes over append. -/
theorem toList_append_chars (s t : String) :
    (s ++ t).toList = s.toList ++ t.toList := by
  rfl

/-- Appending a suffix of length ≥ 5 determines `endsCost`. -/
theorem endsCost_of_suffix (s t : String) (h5 : 5 ≤ t.toList.length) :
    endsCost (s ++ t) = endsCost t := by
  have h1 : (s ++ t).toList.reverse.take 5 = t.toList.reverse.take 5 := by
    rw [toList_append_chars, List.reverse_append, List.take_append_eq_append_take,
      List.length_reverse]
    have h0 : 5 - t.toList.length = 0 := by omega
    rw [h0, List.take_zero, List.append_nil]
  unfold endsCost
  rw [decide_eq_decide, h1]

theorem endsCost_cost (s : String) : endsCost (s ++ ":cost") = true := by
  rw [endsCost_of_suffix s ":cost" (by decide)]
  rfl

theorem endsCost_tokens (s : String) : endsCost (s ++ ":tokens") = false := by
  rw [endsCost_of_suffix s ":tokens" (by decide)]
  rfl

theorem endsCost_requests (s : String) : endsCost (s ++ ":requests") = false := by
  rw [endsCost_of_suffix s ":requests" (by decide)]
  rfl

/-- Claim C8: for every recorded LLM call, the five `…:cost` counters
(provider+feature, model, provider, feature, daily total) are each
incremented by the same integer, namely `int(cost_usd * 1_000_000)` —
Python `int()` truncation toward zero, not `round(cost_usd · 10⁶)`. -/
theorem C8_cost_micro_truncated (provider model feature : String)
    (input_tokens output_tokens : Nat) (cost_usd : ℚ) (user_id : Option Nat)
    (date_key : String) (expiry : Nat) :
    costIncrements (RLLMCosts_record provider model feature input_tokens
        output_tokens cost_usd user_id date_key expiry)
      = List.replicate 5 (pyInt (cost_usd * 1000000)) := by
  cases user_id with
  | none =>
    simp [RLLMCosts_record, costIncrements, endsCost_cost, endsCost_tokens,
      endsCost_requests, List.replicate]
  | some uid =>
    by_cases hu : uid = 0
    · simp [RLLMCosts_record, costIncrements, hu, endsCost_cost, endsCost_tokens,
        endsCost_requests, List.replicate]
    · simp [RLLMCosts_record, costIncrements, hu, endsCost_cost, endsCost_tokens,
        endsCost_requests, List.replicate]

/-- Claim C8 counterexample: at `cost_usd = 3/4000000` (micro-dollar value
`0.75`) every cost counter is incremented by `0`, while
`round(cost_usd · 10⁶) = 1`: the stored amount is the truncation toward
zero, not the rounding, of the micro-dollar cost. -/
theorem C8_counterexample_truncation :
    costIncrements (RLLMCosts_record "openai" "gpt-4o" "briefing" 100 50
        (mkRat 3 4000000) (some 7) "2025-01-01" 1750000000)
      = [0, 0, 0, 0, 0]
    ∧ round ((mkRat 3 4000000 : ℚ) * 1000000) = (1 : ℤ)
    ∧ ((0 : ℤ) ≠ 1) := by
  refine ⟨?_, ?_, by decide⟩
  · have hmul : (mkRat 3 4000000 : ℚ) * 1000000 = mkRat 3 4 := by
      rw [Rat.mkRat_eq_div, Rat.mkRat_eq_div]
      norm_num
    have hz : pyInt (mkRat 3 4) = 0 := by rfl
    simp only [RLLMCosts_record, costIncrements, hmul, hz]
    rfl
  · have h : (mkRat 3 4000000 : ℚ) * 1000000 = 3 / 4 := by
      rw [Rat.mkRat_eq_div]
      norm_num
    rw [h, round_eq]
    norm_num

/-! ## Claims C9 and C10: the token budget and the return shapes of
`generate_briefing_summary` -/

/-- Claim C9: whenever `generate_briefing_summary` reaches the provider (a
request is issued), the token budget of that request is
`min(1024 + 80·candidates + 100·enabled_sections, 4096)`, where
`enabled_sections` counts the truthy toggles of the caller's section map. -/
theorem C9_max_tokens_budget
    (env : ProviderEnv) (scored : List ScoredStory)
    (storyDB : List (String × MStoryRec)) (feedDB : List (Nat × String))
    (briefing_dateStr summary_length summary_style : String)
    (sections : List (String × Bool)) (customPrompts : List String)
    (model : Option String) (req : LLMRequest)
    (h : (generate_briefing_summary env scored storyDB feedDB briefing_dateStr
          summary_length summary_style sections customPrompts model).2 = some req) :
    req.max_tokens =
      min (1024 + scored.length * 80 +
        (sections.filter (fun kv => kv.2)).length * 100) 4096 := by
  simp only [generate_briefing_summary] at h
  split at h
  case isTrue =>
    split at h
    · simp at h
    · split at h
      · simp at h
      · split at h
        · simp only [Option.some.injEq] at h
          subst h
          rfl
        · simp only [Option.some.injEq] at h
          subst h
          rfl
        · simp only [Option.some.injEq] at h
          subst h
          rfl
  case isFalse =>
    split at h
    · simp at h
    · split at h
      · simp at h
      · split at h
        · simp only [Option.some.injEq] at h
          subst h
          rfl
        · simp only [Option.some.injEq] at h
          subst h
          rfl
        · simp only [Option.some.injEq] at h
          subst h
          rfl

/-- A configured provider that answers with a fixed HTML fragment. -/
def exProvider9 : LLMProvider := ⟨true, .ok "<div>ok</div>", (10, 20)⟩

/-- A one-model provider environment whose single provider is configured. -/
def exEnv9 : ProviderEnv :=
  ⟨[("m1", ⟨"vendor", "Model One"⟩)], "m1", fun _ => (exProvider9, "m1-id")⟩

def exScored9 : ScoredStory := ⟨"1:a", "trending_global", false, 100, []⟩

def exStoryDB9 : List (String × MStoryRec) :=
  [("1:a", ⟨1, "Title", "Author", some "today", "content"⟩)]

def exFeedDB9 : List (Nat × String) := [(1, "Feed One")]

def exSections9 : List (String × Bool) := [("trending_global", true)]

/-- Claim C9 witness: one candidate and one enabled section give a request
whose token budget is `min(1024 + 80 + 100, 4096) = 1204`. -/
theorem C9_witness_one_story :
    Option.map LLMRequest.max_tokens
      (generate_briefing_summary exEnv9 [exScored9] exStoryDB9 exFeedDB9
        "Monday" "medium" "medium" exSections9 [] none).2 = some 1204 := by
  cases hreq : (generate_briefing_summary exEnv9 [exScored9] exStoryDB9 exFeedDB9
      "Monday" "medium" "medium" exSections9 [] none).2 with
  | none =>
    have hs : (generate_briefing_summary exEnv9 [exScored9] exStoryDB9 exFeedDB9
        "Monday" "medium" "medium" exSections9 [] none).2.isSome = true := by rfl
    rw [hreq] at hs
    simp at hs
  | some req =>
    have hmax := C9_max_tokens_budget exEnv9 [exScored9] exStoryDB9 exFeedDB9
      "Monday" "medium" "medium" exSections9 [] none req hreq
    have hval : req.max_tokens = 1204 := by rw [hmax]; rfl
    show some req.max_tokens = some 1204
    rw [hval]

/-- Claim C10: the value returned by `generate_briefing_summary` is the
single value `None` iff no story line was built or the (fallen-back)
provider is unconfigured; the pair `(None, None)` iff the provider call
raised a declared `LLM_EXCEPTIONS` failure; the pair `(summary_html,
metadata)` iff the provider call succeeded; and any other provider
exception propagates to the caller. -/
theorem C10_return_shapes
    (env : ProviderEnv) (scored : List ScoredStory)
    (storyDB : List (String × MStoryRec)) (feedDB : List (Nat × String))
    (briefing_dateStr summary_length summary_style : String)
    (sections : List (String × Bool)) (customPrompts : List String)
    (model : Option String) :
    ((generate_briefing_summary env scored storyDB feedDB briefing_dateStr
        summary_length summary_style sections customPrompts model).1
          = .ok .noneSingle
      ↔ buildStoryLines (categoryOverrides
            (if sections.isEmpty then DEFAULT_SECTIONS else sections) scored)
            storyDB feedDB scored = []
        ∨ (pickProvider env (chosenModelName env model)).1.configured = false)
    ∧ ((generate_briefing_summary env scored storyDB feedDB briefing_dateStr
        summary_length summary_style sections customPrompts model).1
          = .ok .nonePairNone
      ↔ buildStoryLines (categoryOverrides
            (if sections.isEmpty then DEFAULT_SECTIONS else sections) scored)
            storyDB feedDB scored ≠ []
        ∧ (pickProvider env (chosenModelName env model)).1.configured = true
        ∧ (pickProvider env (chosenModelName env model)).1.outcome = .declaredError)
    ∧ ((∃ html meta, (generate_briefing_summary env scored storyDB feedDB
          briefing_dateStr summary_length summary_style sections customPrompts
          model).1 = .ok (.ok html meta))
      ↔ buildStoryLines (categoryOverrides
            (if sections.isEmpty then DEFAULT_SECTIONS else sections) scored)
            storyDB feedDB scored ≠ []
        ∧ (pickProvider env (chosenModelName env model)).1.configured = true
        ∧ ∃ s, (pickProvider env (chosenModelName env model)).1.outcome = .ok s)
    ∧ ((generate_briefing_summary env scored storyDB feedDB briefing_dateStr
        summary_length summary_style sections customPrompts model).1
          = .error ()
      ↔ buildStoryLines (categoryOverrides
            (if sections.isEmpty then DEFAULT_SECTIONS else sections) scored)
            storyDB feedDB scored ≠ []
        ∧ (pickProvider env (chosenModelName env model)).1.configured = true
        ∧ (pickProvider env (chosenModelName env model)).1.outcome = .otherError) := by
  rcases hpk : pickProvider env (chosenModelName env model) with ⟨pv, mid, mname⟩
  by_cases hnil : buildStoryLines (categoryOverrides
      (if sections = [] then DEFAULT_SECTIONS else sections) scored)
      storyDB feedDB scored = []
  · refine ⟨?_, ?_, ?_, ?_⟩ <;>
      simp [generate_briefing_summary, hnil, hpk]
  · by_cases hc : pv.configured = true
    · cases ho : pv.outcome with
      | ok html =>
        refine ⟨?_, ?_, ?_, ?_⟩ <;>
          simp [generate_briefing_summary, hnil, hpk, hc, ho]
      | declaredError =>
        refine ⟨?_, ?_, ?_, ?_⟩ <;>
          simp [generate_briefing_summary, hnil, hpk, hc, ho]
      | otherError =>
        refine ⟨?_, ?_, ?_, ?_⟩ <;>
          simp [generate_briefing_summary, hnil, hpk, hc, ho]
    · have hcf : pv.configured = false := by
        cases hcb : pv.configured
        · rfl
        · exact absurd hcb hc
      refine ⟨?_, ?_, ?_, ?_⟩ <;>
        simp [generate_briefing_summary, hnil, hpk, hcf]

end NB
